import Mathlib

/-!
# CadCurve: curves (`Curve.h`) and the demo pipeline (`Example.cpp`)

A shallow embedding of the `crv` curve classes and of the functions of
`Example.cpp` that work on vectors of curve handles.

Modelling decisions.

* The definitions are generic in the number type `α` and use only the
  operations the source uses (`+`, `*`, `/`, unary minus, `<=`, `<`, literals).
  They are read at two types.
  - `Double`: IEEE 754 binary64 with NaN, the infinities and rounding to
    nearest, ties to even, after every operation and for every literal.  This
    is the arithmetic of the program; statements on what the code computes
    with rounding, NaN or overflow in play are made here.  `Double.toRat`
    gives the exact value of a finite double, so that a computed result can be
    compared with the real number it approximates.
  - A linearly ordered field (`ℚ`, `ℝ`): exact arithmetic.  Statements that do
    not depend on rounding (which branch of a constructor is taken for a
    positive argument, the coordinate formulas, the analytic derivative) are
    made here.
* `cos` and `sin` of `<cmath>` are library functions outside the repository:
  they are parameters of `findPoint` and `derivative`.  At `ℝ` they are
  `Real.cos` and `Real.sin`; at `Double` they are any functions, constrained
  where needed by an accuracy hypothesis against `Real.cos` and `Real.sin`.
* A constructor that may throw returns `Except Exception _`.
* The class hierarchy is a closed sum: `Curve α` is the dynamic type of the
  object behind a `Curve*`, with one alternative per concrete class.
* `std::shared_ptr<crv::Curve>` is a non-null handle `SharedPtr α`: the address
  of the object and the object it points to (`std::make_shared` never yields
  a null handle).
* `std::vector` is `List`; `push_back` appends at the end.  Where two
  reference parameters may be bound to the same vector
  (`fillVectorWithCircles`), the vectors live in a memory indexed by address
  (`fillVectorWithCirclesAt`).
* `std::sort` is a library routine outside the repository.  Universal
  statements take it as a parameter constrained by its postconditions in the
  C++ standard (`StdSort`, and `StdSortOn` when the comparator is only
  required to be a strict weak ordering on the values being sorted).
  Statements on one concrete run use `libstdcxx.sort`, a step-by-step
  embedding of the introsort of GNU libstdc++.
* The random engine of `fillVector` is a state-passing source
  (`RandomSource`): each draw returns the `int` drawn and the next engine
  state.  The order in which the two arguments of a constructor call are
  evaluated is a parameter.
* The accumulation loop of `startExample` runs sequentially; its OpenMP pragma
  (whose `reduction` clause is misspelt) is not modelled.
* Console output is not modelled.
-/

namespace crv

/-! ## The type `double` -/

/-- Values of the C++ type `double` (IEEE 754 binary64, rounding to nearest,
ties to even), the zeros of both signs identified: NaN, the two infinities,
and the finite values, each `k * 2 ^ (-1074)` for an integer `k`.  The
literals and the operations below return only values a `double` can hold (at
most 53 significant bits, magnitude below `2 ^ 1024`). -/
inductive Double where
  | nan
  | inf (neg : Bool)
  | fin (k : Int)
  deriving DecidableEq, Repr

namespace Double

/-- Nearest integer to `a / b`, ties to the even one. -/
def halfEven (a b : Nat) : Nat :=
  if 2 * (a % b) < b then a / b
  else if b < 2 * (a % b) then a / b + 1
  else if a / b % 2 = 0 then a / b
  else a / b + 1

/-- Binary search, `fuel` halvings of the interval `lo .. hi`, for the least
`b` with `q < 2 ^ b`. -/
def bitSearch (q : Nat) : Nat → Nat → Nat → Nat
  | 0, _, hi => hi
  | fuel + 1, lo, hi =>
    if q < 2 ^ ((lo + hi) / 2) then bitSearch q fuel lo ((lo + hi) / 2)
    else bitSearch q fuel ((lo + hi) / 2) hi

/-- Number of binary digits of `q < 2 ^ 4096` (1 for `q = 0`). -/
def bitLength (q : Nat) : Nat := bitSearch q 12 0 4096

/-- Exponent of the spacing of the doubles around `n / d` units of
`2 ^ (-1074)`: 53 significant bits, and the unit itself below `2 ^ 53`
units. -/
def spacing (n d : Nat) : Nat := bitLength (n / d) - 53

/-- Rounding of `n / d` units of `2 ^ (-1074)` to 53 significant bits, the
exponent not bounded above. -/
def roundUnits (n d : Nat) : Nat :=
  halfEven n (d * 2 ^ spacing n d) * 2 ^ spacing n d

/-- The double nearest to `± n / d` units of `2 ^ (-1074)`: overflow gives the
infinity of that sign. -/
def ofRatio (neg : Bool) (n d : Nat) : Double :=
  if 2 ^ 2098 ≤ roundUnits n d then inf neg
  else fin (if neg then -(roundUnits n d : Int) else (roundUnits n d : Int))

/-- Conversion `int -> double`. -/
def ofInt (z : Int) : Double := ofRatio (decide (z < 0)) (z.natAbs * 2 ^ 1074) 1

/-- Decimal literal `m * 10 ^ (± e)`. -/
def ofDecimal (m : Nat) (s : Bool) (e : Nat) : Double :=
  if s then ofRatio false (m * 2 ^ 1074) (10 ^ e) else ofRatio false (m * 10 ^ e * 2 ^ 1074) 1

/-- Unary minus. -/
def neg : Double → Double
  | nan => nan
  | inf s => inf (!s)
  | fin k => fin (-k)

/-- Operator `+`. -/
def add : Double → Double → Double
  | nan, _ => nan
  | _, nan => nan
  | inf s, inf s' => if s = s' then inf s else nan
  | inf s, fin _ => inf s
  | fin _, inf s => inf s
  | fin a, fin b => ofRatio (decide (a + b < 0)) (a + b).natAbs 1

/-- Operator `*`. -/
def mul : Double → Double → Double
  | nan, _ => nan
  | _, nan => nan
  | inf s, inf s' => inf (s != s')
  | inf s, fin k => if k = 0 then nan else inf (s != decide (k < 0))
  | fin k, inf s => if k = 0 then nan else inf (s != decide (k < 0))
  | fin a, fin b => ofRatio (decide (a < 0) != decide (b < 0)) (a.natAbs * b.natAbs) (2 ^ 1074)

/-- Operator `/`; a zero divisor counts as `+0`. -/
def div : Double → Double → Double
  | nan, _ => nan
  | _, nan => nan
  | inf _, inf _ => nan
  | inf s, fin k => inf (s != decide (k < 0))
  | fin _, inf _ => fin 0
  | fin a, fin b =>
    if b = 0 then (if a = 0 then nan else inf (decide (a < 0)))
    else ofRatio (decide (a < 0) != decide (b < 0)) (a.natAbs * 2 ^ 1074) b.natAbs

/-- Operator `<=`: false as soon as an operand is NaN. -/
def le : Double → Double → Bool
  | nan, _ => false
  | _, nan => false
  | inf s, inf s' => s || !s'
  | inf s, fin _ => s
  | fin _, inf s => !s
  | fin a, fin b => decide (a ≤ b)

/-- Operator `<`: false as soon as an operand is NaN. -/
def lt : Double → Double → Bool
  | nan, _ => false
  | _, nan => false
  | inf s, inf s' => s && !s'
  | inf s, fin _ => s
  | fin _, inf s => !s
  | fin a, fin b => decide (a < b)

/-- The rational value of a finite double (0 for NaN and the infinities). -/
def toRat : Double → ℚ
  | fin k => (k : ℚ) / 2 ^ 1074
  | _ => 0

/-- Finite doubles: `std::isfinite`, with the magnitude below `2 ^ 1024`. -/
def IsFinite : Double → Prop
  | fin k => k.natAbs < 2 ^ 2098
  | _ => False

/-- NaN test `std::isnan`. -/
def isNaN : Double → Bool
  | nan => true
  | _ => false

instance decIsFinite : (a : Double) → Decidable a.IsFinite
  | nan => isFalse (fun h => h)
  | inf _ => isFalse (fun h => h)
  | fin k => inferInstanceAs (Decidable (k.natAbs < 2 ^ 2098))

instance : Zero Double := ⟨fin 0⟩

instance : One Double := ⟨fin (2 ^ 1074)⟩

instance : Neg Double := ⟨neg⟩

instance : Add Double := ⟨add⟩

instance : Mul Double := ⟨mul⟩

instance : Div Double := ⟨div⟩

instance : Sub Double := ⟨fun a b => add a (neg b)⟩

instance : LE Double := ⟨fun a b => le a b = true⟩

instance : LT Double := ⟨fun a b => lt a b = true⟩

instance (a b : Double) : Decidable (a ≤ b) := inferInstanceAs (Decidable (le a b = true))

instance (a b : Double) : Decidable (a < b) := inferInstanceAs (Decidable (lt a b = true))

instance : OfScientific Double := ⟨ofDecimal⟩

instance : IntCast Double := ⟨ofInt⟩

instance (n : Nat) [n.AtLeastTwo] : OfNat Double n := ⟨ofInt n⟩

end Double

/-! ## `std::sort` of GNU libstdc++ (`bits/stl_algo.h`, `bits/stl_heap.h`)

The vector is a list, an iterator is an index into it, and every function
returns the vector afterwards, or `none` when it would read outside the vector.
Loops that the library leaves unguarded get a fuel that outlasts the vector. -/

namespace libstdcxx

variable {β : Type}

/-- Library call `std::iter_swap(first + i, first + j)`. -/
def iterSwap (v : List β) (i j : Nat) : Option (List β) :=
  match v[i]?, v[j]? with
  | some x, some y => some ((v.set i y).set j x)
  | _, _ => none

/-- Library function `__move_median_to_first(result, a, b, c, comp)`. -/
def moveMedianToFirst (comp : β → β → Bool) (v : List β) (result a b c : Nat) :
    Option (List β) :=
  match v[a]?, v[b]?, v[c]? with
  | some xa, some xb, some xc =>
    if comp xa xb then
      if comp xb xc then iterSwap v result b
      else if comp xa xc then iterSwap v result c
      else iterSwap v result a
    else if comp xa xc then iterSwap v result a
    else if comp xb xc then iterSwap v result c
    else iterSwap v result b
  | _, _, _ => none

/-- Loop `while (comp(first, pivot)) ++first;` of `__unguarded_partition`. -/
def scanUp (comp : β → β → Bool) (v : List β) (pivot : Nat) : Nat → Nat → Option Nat
  | 0, _ => none
  | fuel + 1, first =>
    match v[first]?, v[pivot]? with
    | some x, some p =>
      if comp x p then scanUp comp v pivot fuel (first + 1) else some first
    | _, _ => none

/-- Loop `while (comp(pivot, last)) --last;` of `__unguarded_partition`. -/
def scanDown (comp : β → β → Bool) (v : List β) (pivot : Nat) : Nat → Nat → Option Nat
  | 0, _ => none
  | fuel + 1, last =>
    match v[pivot]?, v[last]? with
    | some p, some x =>
      if comp p x then
        if last = 0 then none else scanDown comp v pivot fuel (last - 1)
      else some last
    | _, _ => none

/-- Library function `__unguarded_partition(first, last, pivot, comp)`: the
vector afterwards and the cut returned. -/
def unguardedPartition (comp : β → β → Bool) (pivot : Nat) :
    Nat → List β → Nat → Nat → Option (List β × Nat)
  | 0, _, _, _ => none
  | fuel + 1, v, first, last =>
    match scanUp comp v pivot (v.length + 1) first with
    | none => none
    | some first =>
      if last = 0 then none
      else
        match scanDown comp v pivot (v.length + 1) (last - 1) with
        | none => none
        | some last =>
          if first < last then
            match iterSwap v first last with
            | none => none
            | some v => unguardedPartition comp pivot fuel v (first + 1) last
          else some (v, first)

/-- Library function `__unguarded_partition_pivot(first, last, comp)`. -/
def unguardedPartitionPivot (comp : β → β → Bool) (v : List β) (first last : Nat) :
    Option (List β × Nat) :=
  match moveMedianToFirst comp v first (first + 1) (first + (last - first) / 2) (last - 1) with
  | none => none
  | some v => unguardedPartition comp first (v.length + 1) v (first + 1) last

/-- Library function `__push_heap(first, holeIndex, topIndex, value, comp)`. -/
def pushHeap (comp : β → β → Bool) (first topIndex : Nat) (value : β) :
    Nat → List β → Nat → Option (List β)
  | 0, _, _ => none
  | fuel + 1, v, holeIndex =>
    match v[first + (holeIndex - 1) / 2]? with
    | none => none
    | some p =>
      if topIndex < holeIndex ∧ comp p value = true then
        pushHeap comp first topIndex value fuel (v.set (first + holeIndex) p)
          ((holeIndex - 1) / 2)
      else some (v.set (first + holeIndex) value)

/-- The `while (secondChild < (len - 1) / 2)` loop of `__adjust_heap`: the
vector, the hole and `secondChild` afterwards. -/
def adjustHeapLoop (comp : β → β → Bool) (first len : Nat) :
    Nat → List β → Nat → Nat → Option (List β × Nat × Nat)
  | 0, _, _, _ => none
  | fuel + 1, v, holeIndex, secondChild =>
    if secondChild < (len - 1) / 2 then
      match v[first + 2 * (secondChild + 1)]?, v[first + (2 * (secondChild + 1) - 1)]? with
      | some r, some l =>
        if comp r l then
          adjustHeapLoop comp first len fuel (v.set (first + holeIndex) l)
            (2 * (secondChild + 1) - 1) (2 * (secondChild + 1) - 1)
        else
          adjustHeapLoop comp first len fuel (v.set (first + holeIndex) r)
            (2 * (secondChild + 1)) (2 * (secondChild + 1))
      | _, _ => none
    else some (v, holeIndex, secondChild)

/-- Library function `__adjust_heap(first, holeIndex, len, value, comp)`. -/
def adjustHeap (comp : β → β → Bool) (v : List β) (first holeIndex len : Nat) (value : β) :
    Option (List β) :=
  match adjustHeapLoop comp first len (len + 1) v holeIndex holeIndex with
  | none => none
  | some (v, hole, secondChild) =>
    if len % 2 = 0 ∧ secondChild = (len - 2) / 2 then
      match v[first + (2 * (secondChild + 1) - 1)]? with
      | none => none
      | some l =>
        pushHeap comp first holeIndex value (len + 1) (v.set (first + hole) l)
          (2 * (secondChild + 1) - 1)
    else pushHeap comp first holeIndex value (len + 1) v hole

/-- The `while (true)` loop of `__make_heap`, from `parent` down to 0. -/
def makeHeapLoop (comp : β → β → Bool) (first len : Nat) : Nat → List β → Option (List β)
  | 0, v =>
    match v[first]? with
    | none => none
    | some value => adjustHeap comp v first 0 len value
  | parent + 1, v =>
    match v[first + (parent + 1)]? with
    | none => none
    | some value =>
      match adjustHeap comp v first (parent + 1) len value with
      | none => none
      | some v => makeHeapLoop comp first len parent v

/-- Library function `__make_heap(first, last, comp)`. -/
def makeHeap (comp : β → β → Bool) (v : List β) (first last : Nat) : Option (List β) :=
  if last - first < 2 then some v
  else makeHeapLoop comp first (last - first) ((last - first - 2) / 2) v

/-- Library function `__pop_heap(first, last, result, comp)`. -/
def popHeap (comp : β → β → Bool) (v : List β) (first last result : Nat) :
    Option (List β) :=
  match v[result]?, v[first]? with
  | some value, some top => adjustHeap comp (v.set result top) first 0 (last - first) value
  | _, _ => none

/-- Library function `__sort_heap(first, last, comp)`, by the number of
elements still in the heap. -/
def sortHeap (comp : β → β → Bool) (first : Nat) : Nat → List β → Option (List β)
  | 0, v => some v
  | n + 1, v =>
    if 1 < n + 1 then
      match popHeap comp v first (first + n) (first + n) with
      | none => none
      | some v => sortHeap comp first n v
    else some v

/-- Library call `__partial_sort(first, last, last, comp)` of
`__introsort_loop`: `__heap_select` (no element lies after `middle = last`)
then `__sort_heap`. -/
def partialSort (comp : β → β → Bool) (v : List β) (first last : Nat) : Option (List β) :=
  match makeHeap comp v first last with
  | none => none
  | some v => sortHeap comp first (last - first) v

/-- Library function `__introsort_loop(first, last, depth_limit, comp)`, with
`_S_threshold = 16`. -/
def introsortLoop (comp : β → β → Bool) : Nat → List β → Nat → Nat → Option (List β)
  | 0, v, first, last =>
    if 16 < last - first then partialSort comp v first last else some v
  | depth + 1, v, first, last =>
    if 16 < last - first then
      match unguardedPartitionPivot comp v first last with
      | none => none
      | some (v, cut) =>
        match introsortLoop comp depth v cut last with
        | none => none
        | some v => introsortLoop comp depth v first cut
    else some v

/-- The `while` loop of `__unguarded_linear_insert(last, comp)`, the value
`val` taken out of the slot `last`. -/
def linearInsertLoop (comp : β → β → Bool) (val : β) : Nat → List β → Nat → Option (List β)
  | 0, _, _ => none
  | fuel + 1, v, last =>
    if last = 0 then none
    else
      match v[last - 1]? with
      | none => none
      | some x =>
        if comp val x then linearInsertLoop comp val fuel (v.set last x) (last - 1)
        else some (v.set last val)

/-- Library function `__unguarded_linear_insert(last, comp)`. -/
def unguardedLinearInsert (comp : β → β → Bool) (v : List β) (last : Nat) :
    Option (List β) :=
  match v[last]? with
  | none => none
  | some val => linearInsertLoop comp val (last + 1) v last

/-- The `for` loop of `__insertion_sort(first, last, comp)` with `n` elements
still to insert, the next one at `i`. -/
def insertionSortLoop (comp : β → β → Bool) (first : Nat) :
    Nat → Nat → List β → Option (List β)
  | 0, _, v => some v
  | n + 1, i, v =>
    match v[i]?, v[first]? with
    | some val, some front =>
      if comp val front then
        insertionSortLoop comp first n (i + 1)
          (v.take first ++ val :: (v.drop first).take (i - first) ++ v.drop (i + 1))
      else
        match unguardedLinearInsert comp v i with
        | none => none
        | some v => insertionSortLoop comp first n (i + 1) v
    | _, _ => none

/-- Library function `__insertion_sort(first, last, comp)`. -/
def insertionSort (comp : β → β → Bool) (v : List β) (first last : Nat) : Option (List β) :=
  if first = last then some v else insertionSortLoop comp first (last - (first + 1)) (first + 1) v

/-- Library function `__unguarded_insertion_sort(first, last, comp)`, with `n`
elements still to insert, the next one at `i`. -/
def unguardedInsertionSort (comp : β → β → Bool) : Nat → Nat → List β → Option (List β)
  | 0, _, v => some v
  | n + 1, i, v =>
    match unguardedLinearInsert comp v i with
    | none => none
    | some v => unguardedInsertionSort comp n (i + 1) v

/-- Library function `__final_insertion_sort(first, last, comp)`. -/
def finalInsertionSort (comp : β → β → Bool) (v : List β) (first last : Nat) :
    Option (List β) :=
  if 16 < last - first then
    match insertionSort comp v first (first + 16) with
    | none => none
    | some v => unguardedInsertionSort comp (last - (first + 16)) (first + 16) v
  else insertionSort comp v first last

/-- Library function `std::sort(first, last, comp)` of GNU libstdc++ on the
whole vector; `none` when the library would read outside the vector. -/
def sort (comp : β → β → Bool) (v : List β) : Option (List β) :=
  if v.length = 0 then some v
  else
    match introsortLoop comp (Nat.log2 v.length * 2) v 0 v.length with
    | none => none
    | some v => finalInsertionSort comp v 0 v.length

end libstdcxx

section Definitions

variable {α : Type} [Zero α] [One α] [Add α] [Mul α] [Div α] [Neg α] [LE α] [LT α]
  [∀ a b : α, Decidable (a ≤ b)] [∀ a b : α, Decidable (a < b)] [DecidableEq α]
  [OfScientific α] [OfNat α 2] [IntCast α]

/-- PI, which is used in calculations in this library: the literal `3.14`. -/
def PI : α := 3.14

/-- Point in 3D with x, y and z coordinates. -/
structure Point (α : Type) where
  x : α
  y : α
  z : α
  deriving DecidableEq, Repr

/-- The exception a constructor throws: `std::invalid_argument(what)`. -/
inductive Exception where
  | invalid_argument (what : String)
  deriving DecidableEq, Repr

/-- Base-class constructor `Curve(double radi) : radius{ radi }`: throws when
`radi <= 0`, otherwise the stored member `radius`. -/
def Curve.init (radi : α) : Except Exception α :=
  if radi ≤ 0 then .error (.invalid_argument "Radius must be > 0") else .ok radi

/-- Objects of class `Circle`: the inherited member `radius`. -/
structure Circle (α : Type) where
  radius : α
  deriving DecidableEq, Repr

/-- Objects of class `Ellipse`: `radius` (inherited) and `secondRadius`. -/
structure Ellipse (α : Type) where
  radius : α
  secondRadius : α
  deriving DecidableEq, Repr

/-- Objects of class `Helix`: `radius` (inherited) and `step`. -/
structure Helix (α : Type) where
  radius : α
  step : α
  deriving DecidableEq, Repr

/-- Constructor `Circle(double radi) : Curve(radi) {}`. -/
def Circle.new (radi : α) : Except Exception (Circle α) :=
  match Curve.init radi with
  | .error e => .error e
  | .ok radius => .ok { radius := radius }

/-- Constructor `Ellipse(double firstRadi, double secondRadi)`: the base
constructor runs first, then the check of `secondRadi`. -/
def Ellipse.new (firstRadi secondRadi : α) : Except Exception (Ellipse α) :=
  match Curve.init firstRadi with
  | .error e => .error e
  | .ok radius =>
    if secondRadi ≤ 0 then .error (.invalid_argument "Second radius must be > 0")
    else .ok { radius := radius, secondRadius := secondRadi }

/-- Constructor `Helix(double radi, double _step)`: the base constructor runs
first, then the check of `_step`. -/
def Helix.new (radi _step : α) : Except Exception (Helix α) :=
  match Curve.init radi with
  | .error e => .error e
  | .ok radius =>
    if _step ≤ 0 then .error (.invalid_argument "Step of helix must be > 0")
    else .ok { radius := radius, step := _step }

/-- Inherited `double Curve::getRadius()` on a `Circle`. -/
def Circle.getRadius (c : Circle α) : α := c.radius

/-- Hiding `std::pair<double, double> Ellipse::getRadius()`. -/
def Ellipse.getRadius (e : Ellipse α) : α × α := (e.radius, e.secondRadius)

/-- Inherited `double Curve::getRadius()` on a `Helix`; the class declares no
other accessor (`step` is private and has no getter). -/
def Helix.getRadius (h : Helix α) : α := h.radius

/-- The accessors of class `Helix`, as functions of the object: the inherited
`getRadius` and nothing else. -/
def Helix.accessors : List (Helix α → α) := [Helix.getRadius]

/-- Method `Circle::findPoint`. -/
def Circle.findPoint (cos sin : α → α) (c : Circle α) (t : α) : Point α :=
  { x := c.radius * cos t, y := c.radius * sin t, z := 0 }

/-- Method `Circle::derivative`. -/
def Circle.derivative (cos sin : α → α) (c : Circle α) (t : α) : Point α :=
  { x := -1 * c.radius * sin t, y := c.radius * cos t, z := 0 }

/-- Method `Ellipse::findPoint`. -/
def Ellipse.findPoint (cos sin : α → α) (e : Ellipse α) (t : α) : Point α :=
  { x := e.radius * cos t, y := e.secondRadius * sin t, z := 0 }

/-- Method `Ellipse::derivative`. -/
def Ellipse.derivative (cos sin : α → α) (e : Ellipse α) (t : α) : Point α :=
  { x := -1 * e.radius * sin t, y := e.secondRadius * cos t, z := 0 }

/-- Method `Helix::findPoint`. -/
def Helix.findPoint (cos sin : α → α) (h : Helix α) (t : α) : Point α :=
  { x := h.radius * cos t, y := h.radius * sin t, z := h.step / (2 * PI) * t }

/-- Method `Helix::derivative`. -/
def Helix.derivative (cos sin : α → α) (h : Helix α) (t : α) : Point α :=
  { x := -1 * h.radius * sin t, y := h.radius * cos t, z := h.step / (2 * PI) }

/-- Dynamic type of the object behind a `Curve*`: one of the three concrete
classes (the base class is abstract). -/
inductive Curve (α : Type) where
  | circle (c : Circle α)
  | ellipse (e : Ellipse α)
  | helix (h : Helix α)
  deriving DecidableEq, Repr

/-- Non-virtual `double Curve::getRadius()` called through a `Curve*`: the
member `radius` of the base part, whatever the dynamic type. -/
def Curve.getRadius : Curve α → α
  | .circle c => c.radius
  | .ellipse e => e.radius
  | .helix h => h.radius

/-- Virtual `Curve::findPoint`, dispatched on the dynamic type. -/
def Curve.findPoint (cos sin : α → α) : Curve α → α → Point α
  | .circle c, t => c.findPoint cos sin t
  | .ellipse e, t => e.findPoint cos sin t
  | .helix h, t => h.findPoint cos sin t

/-- Virtual `Curve::derivative`, dispatched on the dynamic type. -/
def Curve.derivative (cos sin : α → α) : Curve α → α → Point α
  | .circle c, t => c.derivative cos sin t
  | .ellipse e, t => e.derivative cos sin t
  | .helix h, t => h.derivative cos sin t

/-- Analytic reading of "`d` is the derivative of `f` at `t`" for curves in
space over `ℝ`: each coordinate function of `f` has, at `t`, the derivative
given by the matching coordinate of `d t`. -/
def IsDerivativeAt (f d : ℝ → Point ℝ) (t : ℝ) : Prop :=
  HasDerivAt (fun s => (f s).x) (d t).x t ∧
  HasDerivAt (fun s => (f s).y) (d t).y t ∧
  HasDerivAt (fun s => (f s).z) (d t).z t

/-! ## `Example.cpp`: vectors of handles -/

/-- Handle `std::shared_ptr<crv::Curve>`: the address of the managed object
and the object itself. -/
structure SharedPtr (α : Type) where
  addr : Nat
  obj : Curve α
  deriving DecidableEq, Repr

/-- The call `std::make_shared<T>(...)` of a successful construction, the
fresh object being placed at `addr`. -/
def make_shared (addr : Nat) (obj : Curve α) : SharedPtr α :=
  { addr := addr, obj := obj }

/-- The cast `std::dynamic_pointer_cast<crv::Circle>(curve)`: the same handle
when the dynamic type is `Circle`, the empty handle otherwise. -/
def dynamic_pointer_cast_Circle (curve : SharedPtr α) : Option (SharedPtr α) :=
  match curve.obj with
  | .circle _ => some curve
  | _ => none

/-- Function `fillVectorWithCircles(curves, onlyCircles)`: the range-for loop
over `curves`, pushing to the back of `onlyCircles` each handle whose cast
succeeds.  The result is `onlyCircles` after the call; `curves` is `const`. -/
def fillVectorWithCircles (curves onlyCircles : List (SharedPtr α)) :
    List (SharedPtr α) :=
  curves.foldl
    (fun acc curve =>
      match dynamic_pointer_cast_Circle curve with
      | some p => acc ++ [p]
      | none => acc)
    onlyCircles

/-- The loop of `fillVectorWithCircles` when `curves` and `onlyCircles` are the
same vector, of the given capacity at the call: `n` iterations left (the bounds
`begin()`, `end()` are taken once, at entry), the next element at index `i`,
the vector so far `data`.  A `push_back` on a full vector reallocates, after
which the loop iterator dangles (`dangling`): reading through it again is
undefined, `none`. -/
def aliasedFillLoop (capacity : Nat) :
    Nat → Nat → List (SharedPtr α) → Bool → Option (List (SharedPtr α))
  | 0, _, data, _ => some data
  | n + 1, i, data, dangling =>
    if dangling then none
    else
      match data[i]? with
      | none => none
      | some curve =>
        match dynamic_pointer_cast_Circle curve with
        | some p => aliasedFillLoop capacity n (i + 1) (data ++ [p]) (decide (capacity ≤ data.length))
        | none => aliasedFillLoop capacity n (i + 1) data false

/-- Function `fillVectorWithCircles(curves, onlyCircles)` on the vectors in
memory: `mem v` is the content of the vector object at the address `v`, the
two arguments are the addresses the references are bound to, and `capacity` is
the capacity of the destination at the call.  The result is the content of
every vector after the call. -/
def fillVectorWithCirclesAt (mem : Nat → List (SharedPtr α)) (capacity : Nat)
    (curves onlyCircles : Nat) : Option (Nat → List (SharedPtr α)) :=
  if curves = onlyCircles then
    match aliasedFillLoop capacity (mem curves).length 0 (mem curves) false with
    | none => none
    | some data => some (Function.update mem onlyCircles data)
  else
    some (Function.update mem onlyCircles
      (fillVectorWithCircles (mem curves) (mem onlyCircles)))

/-- Runtime variant test: the dynamic type of the object is `Circle`. -/
def Curve.isCircle : Curve α → Bool
  | .circle _ => true
  | _ => false

/-- Requirement of the C++ standard on the comparator handed to `std::sort`:
a strict weak ordering. -/
structure StrictWeakOrdering {β : Type} (comp : β → β → Bool) : Prop where
  irrefl : ∀ a, comp a a = false
  trans : ∀ a b c, comp a b = true → comp b c = true → comp a c = true
  incomp_trans : ∀ a b c, comp a b = false → comp b a = false →
    comp b c = false → comp c b = false → comp a c = false ∧ comp c a = false

/-- Postconditions of `std::sort(first, last, comp)` in the C++ standard, for
a comparator that is a strict weak ordering: the range holds the same elements
and is sorted with respect to `comp` (no element compares less than an earlier
one).  The standard promises nothing on the order of equivalent elements. -/
structure StdSort {β : Type} (sort : (β → β → Bool) → List β → List β) : Prop where
  perm : ∀ comp l, StrictWeakOrdering comp → List.Perm (sort comp l) l
  sorted : ∀ comp l, StrictWeakOrdering comp →
    List.Pairwise (fun a b => comp b a = false) (sort comp l)

/-- The lambda of `sortCircles`:
`lhs->getRadius() < rhs->getRadius()`. -/
def radiusLess (lhs rhs : SharedPtr α) : Bool :=
  decide (lhs.obj.getRadius < rhs.obj.getRadius)

/-- Function `sortCircles(onlyCircles)`: `std::sort` of the whole vector with
the radius comparator.  The result is `onlyCircles` after the call. -/
def sortCircles (sort : (SharedPtr α → SharedPtr α → Bool) → List (SharedPtr α) →
    List (SharedPtr α)) (onlyCircles : List (SharedPtr α)) : List (SharedPtr α) :=
  sort radiusLess onlyCircles

/-- Accumulation loop of `startExample`:
`for (int i = 0; i < onlyCircles.size(); i++)
   circlesRadiSum += onlyCircles[i]->getRadius();`
run sequentially from the given initial value of `circlesRadiSum`. -/
def radiSumLoop (onlyCircles : List (SharedPtr α)) (circlesRadiSum : α) : α :=
  (List.range onlyCircles.length).foldl
    (fun acc i =>
      match onlyCircles[i]? with
      | some p => acc + p.obj.getRadius
      | none => acc)
    circlesRadiSum

/-- One admissible `std::sort`: insertion sort, which keeps equivalent
elements in their original order. -/
def insertionStdSort {β : Type} (comp : β → β → Bool) (l : List β) : List β :=
  List.insertionSort (fun a b => comp b a = false) l

/-- Stability of a reordering, entry by entry: for every radius value the
entries of that radius come in `output` in the order they have in `input`. -/
def TiesKeepOrder (input output : List (SharedPtr α)) : Prop :=
  ∀ r : α, output.filter (fun p => decide (p.obj.getRadius = r)) =
    input.filter (fun p => decide (p.obj.getRadius = r))

/-! ## `Example.cpp`: the random population -/

/-- The random source of `fillVector`: the state `G` of the engine `mt`
(seeded from `std::random_device`) and the two distributions applied to it,
`distCurvesType(mt)` and `distCurvesRadi(mt)`, each returning the `int` drawn
and the engine state after the draw. -/
structure RandomSource (G : Type) where
  distCurvesType : G → Int × G
  distCurvesRadi : G → Int × G

/-- Ranges of the two distributions, as declared in `fillVector`:
`uniform_int_distribution<int>(0, 2)` and `uniform_int_distribution<int>(1, 100)`. -/
structure RandomSource.InRange {G : Type} (R : RandomSource G) : Prop where
  type_range : ∀ g, 0 ≤ (R.distCurvesType g).1 ∧ (R.distCurvesType g).1 ≤ 2
  radi_range : ∀ g, 1 ≤ (R.distCurvesRadi g).1 ∧ (R.distCurvesRadi g).1 ≤ 100

/-- The two draws `distCurvesRadi(mt), distCurvesRadi(mt)` of a two-argument
constructor call.  C++ leaves the order of evaluation of the arguments to the
compiler: with `leftToRight` the first argument gets the first draw, otherwise
the second argument does. -/
def drawTwo {G : Type} (R : RandomSource G) (leftToRight : Bool) (mt : G) :
    (Int × Int) × G :=
  let a := R.distCurvesRadi mt
  let b := R.distCurvesRadi a.2
  if leftToRight then ((a.1, b.1), b.2) else ((b.1, a.1), b.2)

/-- The `for` loop of `fillVector` with `k` iterations left, `i` the loop
counter, `mt` the engine state and `curves` the vector so far.  The drawn
`int` is converted to `double` for the constructor; the object made by the
`i`-th iteration is placed at the address `i`; an exception thrown by a
constructor leaves the function. -/
def fillVectorLoop {G : Type} (R : RandomSource G) (leftToRight : Bool) :
    Nat → Nat → G → List (SharedPtr α) → Except Exception (List (SharedPtr α))
  | 0, _, _, curves => .ok curves
  | k + 1, i, mt, curves =>
    let ty := R.distCurvesType mt
    if ty.1 = 0 then
      let r := R.distCurvesRadi ty.2
      match Circle.new (r.1 : α) with
      | .error e => .error e
      | .ok c =>
        fillVectorLoop R leftToRight k (i + 1) r.2 (curves ++ [make_shared i (.circle c)])
    else if ty.1 = 1 then
      let d := drawTwo R leftToRight ty.2
      match Ellipse.new (d.1.1 : α) (d.1.2 : α) with
      | .error e => .error e
      | .ok c =>
        fillVectorLoop R leftToRight k (i + 1) d.2 (curves ++ [make_shared i (.ellipse c)])
    else if ty.1 = 2 then
      let d := drawTwo R leftToRight ty.2
      match Helix.new (d.1.1 : α) (d.1.2 : α) with
      | .error e => .error e
      | .ok c =>
        fillVectorLoop R leftToRight k (i + 1) d.2 (curves ++ [make_shared i (.helix c)])
    else
      fillVectorLoop R leftToRight k (i + 1) ty.2 curves

/-- Function `fillVector(curves, numberOfCurves)` started with the engine in
state `mt`: the loop `for (int i = 0; i < numberOfCurves; i++)`.  The result is
`curves` after the call, or the exception that left the function. -/
def fillVector {G : Type} (R : RandomSource G) (leftToRight : Bool) (mt : G)
    (curves : List (SharedPtr α)) (numberOfCurves : Int) :
    Except Exception (List (SharedPtr α)) :=
  fillVectorLoop R leftToRight numberOfCurves.toNat 0 mt curves

/-- Function `startExample()`, its console output left out: a population of
100 curves, the vector of its circles, that vector sorted, and the sum of the
radii, which is the value returned here. -/
def startExample {G : Type} (R : RandomSource G) (leftToRight : Bool)
    (sort : (SharedPtr α → SharedPtr α → Bool) → List (SharedPtr α) → List (SharedPtr α))
    (mt : G) : Except Exception α :=
  match fillVector R leftToRight mt ([] : List (SharedPtr α)) 100 with
  | .error e => .error e
  | .ok curves =>
    .ok (radiSumLoop (sortCircles sort (fillVectorWithCircles curves [])) 0)

/-- The radius-like members of an object: `radius`, and `secondRadius` or
`step` where the class has one. -/
def Curve.parameters : Curve α → List α
  | .circle c => [c.radius]
  | .ellipse e => [e.radius, e.secondRadius]
  | .helix h => [h.radius, h.step]

/-- A value a radius draw can produce: the conversion to `double` of an `int`
between 1 and 100. -/
def IsRadiusDraw (x : α) : Prop :=
  ∃ k : Int, 1 ≤ k ∧ k ≤ 100 ∧ x = (k : α)

/-- A random source on a counter `n`: a variant draw is `n mod 3` and moves the
counter by 1, a radius draw is `n mod 100 + 1` and moves it by 3. -/
def counterSource : RandomSource Nat where
  distCurvesType n := (((n % 3 : Nat) : Int), n + 1)
  distCurvesRadi n := (((n % 100 + 1 : Nat) : Int), n + 3)

/-- The population of the end-to-end example, `[Circle(5), Ellipse(3, 4),
Circle(2)]`, held at the addresses 0, 1, 2. -/
def examplePopulation [OfNat α 5] [OfNat α 3] [OfNat α 4] : List (SharedPtr α) :=
  [make_shared 0 (.circle { radius := 5 }),
    make_shared 1 (.ellipse { radius := 3, secondRadius := 4 }),
    make_shared 2 (.circle { radius := 2 })]

end Definitions

/-- Requirement of the C++ standard on the comparator handed to `std::sort`,
read on the values of the range `l` being sorted: a strict weak ordering on
them. -/
structure StrictWeakOrderingOn {β : Type} (comp : β → β → Bool) (l : List β) : Prop where
  irrefl : ∀ a ∈ l, comp a a = false
  trans : ∀ a ∈ l, ∀ b ∈ l, ∀ c ∈ l, comp a b = true → comp b c = true → comp a c = true
  incomp_trans : ∀ a ∈ l, ∀ b ∈ l, ∀ c ∈ l, comp a b = false → comp b a = false →
    comp b c = false → comp c b = false → comp a c = false ∧ comp c a = false

/-- Postconditions of `std::sort(first, last, comp)` in the C++ standard, for
a comparator that is a strict weak ordering on the values of the range. -/
structure StdSortOn {β : Type} (sort : (β → β → Bool) → List β → List β) : Prop where
  perm : ∀ comp l, StrictWeakOrderingOn comp l → List.Perm (sort comp l) l
  sorted : ∀ comp l, StrictWeakOrderingOn comp l →
    List.Pairwise (fun a b => comp b a = false) (sort comp l)

/-- The `std::sort` of GNU libstdc++ as a function on vectors; where the
library would read outside the vector (undefined behaviour) the vector is
left as it is. -/
def gnuStdSort {β : Type} (comp : β → β → Bool) (l : List β) : List β :=
  (libstdcxx.sort comp l).getD l

/-- The vector `[Circle(NaN), Circle(1)]`, at the addresses 0 and 1. -/
def nanAndOne : List (SharedPtr Double) :=
  [make_shared 0 (.circle { radius := Double.nan }), make_shared 1 (.circle { radius := 1 })]

/-- The vector `[Circle(3), Circle(NaN), Circle(1), Circle(2)]`, at the
addresses 0 to 3. -/
def threeNanOneTwo : List (SharedPtr Double) :=
  [make_shared 0 (.circle { radius := 3 }), make_shared 1 (.circle { radius := Double.nan }),
    make_shared 2 (.circle { radius := 1 }), make_shared 3 (.circle { radius := 2 })]

/-- Seventeen circles of radius 1, at the addresses 0 to 16. -/
def seventeenTied : List (SharedPtr Double) :=
  (List.range 17).map (fun i => make_shared i (.circle { radius := 1 }))

/-- A handle on a circle of radius 1, the object at the address 7. -/
def unitCircle : SharedPtr Double := make_shared 7 (.circle { radius := 1 })

/-- A memory whose vector at the address 0 holds the one handle `unitCircle`,
every other vector being empty. -/
def oneCircleMemory : Nat → List (SharedPtr Double) :=
  fun v => if v = 0 then [unitCircle] else []

/-- Three circles of radii 5, 1, 5, at the addresses 0, 1, 2. -/
def fiveOneFive : List (SharedPtr Double) :=
  [make_shared 0 (.circle { radius := 5 }), make_shared 1 (.circle { radius := 1 }),
    make_shared 2 (.circle { radius := 5 })]

/-- The function `cos` of the C library at the argument 5 (elsewhere the
value does not matter here): the double nearest to the cosine of 5. -/
def cosAtFive : Double → Double := fun _ => 0.28366218546322625

/-- The function `sin` of the C library at the argument 5: the double nearest
to the sine of 5. -/
def sinAtFive : Double → Double := fun _ => -0.9589242746631385

/-- The function `cos` of the C library at the argument 2: the double nearest
to the cosine of 2. -/
def cosAtTwo : Double → Double := fun _ => -0.4161468365471424

/-- The function `sin` of the C library at the argument 2: the double nearest
to the sine of 2. -/
def sinAtTwo : Double → Double := fun _ => 0.9092974268256817

variable {α : Type} [LinearOrderedField α]

/-! ## Construction -/

theorem curve_init_of_pos {r : α} (h : 0 < r) : Curve.init r = .ok r := by
  simp [Curve.init, not_le.mpr h]

theorem curve_init_of_nonpos {r : α} (h : r ≤ 0) :
    Curve.init r = .error (.invalid_argument "Radius must be > 0") := by
  simp [Curve.init, h]

theorem circle_new_of_pos {r : α} (h : 0 < r) : Circle.new r = .ok { radius := r } := by
  simp [Circle.new, curve_init_of_pos h]

theorem ellipse_new_of_pos {r1 r2 : α} (h1 : 0 < r1) (h2 : 0 < r2) :
    Ellipse.new r1 r2 = .ok { radius := r1, secondRadius := r2 } := by
  simp [Ellipse.new, curve_init_of_pos h1, not_le.mpr h2]

theorem helix_new_of_pos {r step : α} (h1 : 0 < r) (h2 : 0 < step) :
    Helix.new r step = .ok { radius := r, step := step } := by
  simp [Helix.new, curve_init_of_pos h1, not_le.mpr h2]

/-- On doubles each constructor throws exactly when the check `<= 0` of one of
its arguments succeeds: a NaN argument, for which the check fails, is let
through. -/
theorem double_construction_fails_iff (r p : Double) :
    ((∃ what, Circle.new r = .error (.invalid_argument what)) ↔ r ≤ 0) ∧
    ((∃ what, Ellipse.new r p = .error (.invalid_argument what)) ↔ r ≤ 0 ∨ p ≤ 0) ∧
    ((∃ what, Helix.new r p = .error (.invalid_argument what)) ↔ r ≤ 0 ∨ p ≤ 0) := by
  by_cases hr : r ≤ 0 <;> by_cases hp : p ≤ 0 <;>
    simp [Circle.new, Ellipse.new, Helix.new, Curve.init, hr, hp]

/-- C1, the code at NaN: the constructors accept a NaN radius, second radius
or step (the check `NaN <= 0` is false), so the object built has a radius-like
member that is not `> 0`, against the documented "must be > 0". -/
theorem constructors_accept_nan :
    Circle.new Double.nan = .ok { radius := Double.nan } ∧
    Ellipse.new (1 : Double) Double.nan = .ok { radius := 1, secondRadius := Double.nan } ∧
    Helix.new (1 : Double) Double.nan = .ok { radius := 1, step := Double.nan } ∧
    ¬ (Double.nan ≤ (0 : Double)) ∧
    ¬ ((0 : Double) < Double.nan) := by
  have h1 : ¬ ((1 : Double) ≤ 0) := by decide!
  have hn : ¬ (Double.nan ≤ (0 : Double)) := by decide
  refine ⟨?_, ?_, ?_, hn, by decide⟩ <;>
    simp [Circle.new, Ellipse.new, Helix.new, Curve.init, h1, hn]

/-- C2 (as amended): with positive arguments every constructor returns an
object, `Circle(r).getRadius()` is `r`, `Ellipse(r1, r2).getRadius()` is the
pair `(r1, r2)`, `Helix(r, step).getRadius()` is `r`; the step is stored
unchanged in the private member `step`, and every accessor of the helix
returns the radius. -/
theorem construction_roundtrip (r p : α) (hr : 0 < r) (hp : 0 < p) :
    (∃ c, Circle.new r = .ok c ∧ c.getRadius = r ∧ (Curve.circle c).getRadius = r) ∧
    (∃ e, Ellipse.new r p = .ok e ∧ e.getRadius = (r, p) ∧
      (Curve.ellipse e).getRadius = r) ∧
    (∃ h, Helix.new r p = .ok h ∧ h.getRadius = r ∧ (Curve.helix h).getRadius = r ∧
      h.step = p ∧ ∀ acc ∈ Helix.accessors, acc h = r) := by
  refine ⟨⟨_, circle_new_of_pos hr, rfl, rfl⟩, ⟨_, ellipse_new_of_pos hr hp, rfl, rfl⟩,
    ⟨_, helix_new_of_pos hr hp, rfl, rfl, rfl, ?_⟩⟩
  intro acc hacc
  simp only [Helix.accessors, List.mem_singleton] at hacc
  rw [hacc]
  rfl

/-- C2, witness: the round trip at radius 1 and second parameter 2. -/
theorem construction_roundtrip_witness :
    (0 : ℚ) < 1 ∧ (0 : ℚ) < 2 ∧
    ((∃ c, Circle.new (1 : ℚ) = .ok c ∧ c.getRadius = 1 ∧
        (Curve.circle c).getRadius = 1) ∧
      (∃ e, Ellipse.new (1 : ℚ) 2 = .ok e ∧ e.getRadius = (1, 2) ∧
        (Curve.ellipse e).getRadius = 1) ∧
      (∃ h, Helix.new (1 : ℚ) 2 = .ok h ∧ h.getRadius = 1 ∧
        (Curve.helix h).getRadius = 1 ∧ h.step = 2 ∧
        ∀ acc ∈ Helix.accessors, acc h = 1)) :=
  ⟨by norm_num, by norm_num, construction_roundtrip 1 2 (by norm_num) (by norm_num)⟩

/-- C2, counterexample: `Helix(1, 2)` is constructed, and no accessor of the
object returns its step 2. -/
theorem helix_step_not_returned :
    ∃ h : Helix ℚ, Helix.new (1 : ℚ) 2 = .ok h ∧ h.step = 2 ∧
      ∀ acc ∈ Helix.accessors, acc h ≠ 2 := by
  refine ⟨_, helix_new_of_pos (by norm_num) (by norm_num), rfl, ?_⟩
  intro acc hacc
  simp only [Helix.accessors, List.mem_singleton] at hacc
  rw [hacc]
  simp [Helix.getRadius]

/-! ## Evaluation -/

/-- C3: for positive parameters each constructor returns an object whose
`findPoint(t)` and `derivative(t)`, called through the base class, are the rows
of the table: circle `(r cos t, r sin t, 0)` and `(-r sin t, r cos t, 0)`;
ellipse `(r1 cos t, r2 sin t, 0)` and `(-r1 sin t, r2 cos t, 0)`; helix
`(r cos t, r sin t, step / (2 PI) t)` and `(-r sin t, r cos t, step / (2 PI))`. -/
theorem findPoint_derivative_table (cos sin : α → α) (r p t : α) (hr : 0 < r)
    (hp : 0 < p) :
    (∃ c, Circle.new r = .ok c ∧
      (Curve.circle c).findPoint cos sin t = ⟨r * cos t, r * sin t, 0⟩ ∧
      (Curve.circle c).derivative cos sin t = ⟨-r * sin t, r * cos t, 0⟩) ∧
    (∃ e, Ellipse.new r p = .ok e ∧
      (Curve.ellipse e).findPoint cos sin t = ⟨r * cos t, p * sin t, 0⟩ ∧
      (Curve.ellipse e).derivative cos sin t = ⟨-r * sin t, p * cos t, 0⟩) ∧
    (∃ h, Helix.new r p = .ok h ∧
      (Curve.helix h).findPoint cos sin t = ⟨r * cos t, r * sin t, p / (2 * PI) * t⟩ ∧
      (Curve.helix h).derivative cos sin t = ⟨-r * sin t, r * cos t, p / (2 * PI)⟩) := by
  refine ⟨⟨_, circle_new_of_pos hr, ?_, ?_⟩, ⟨_, ellipse_new_of_pos hr hp, ?_, ?_⟩,
    ⟨_, helix_new_of_pos hr hp, ?_, ?_⟩⟩ <;>
  simp [Curve.findPoint, Curve.derivative, Circle.findPoint, Circle.derivative,
    Ellipse.findPoint, Ellipse.derivative, Helix.findPoint, Helix.derivative]

/-- C3, witness: the table at `ℝ` with the real cosine and sine, radius 1,
second parameter 2 and `t = 0`. -/
theorem findPoint_derivative_table_witness :
    (0 : ℝ) < 1 ∧ (0 : ℝ) < 2 ∧
    ((∃ c, Circle.new (1 : ℝ) = .ok c ∧
        (Curve.circle c).findPoint Real.cos Real.sin 0 =
          ⟨1 * Real.cos 0, 1 * Real.sin 0, 0⟩ ∧
        (Curve.circle c).derivative Real.cos Real.sin 0 =
          ⟨-1 * Real.sin 0, 1 * Real.cos 0, 0⟩) ∧
      (∃ e, Ellipse.new (1 : ℝ) 2 = .ok e ∧
        (Curve.ellipse e).findPoint Real.cos Real.sin 0 =
          ⟨1 * Real.cos 0, 2 * Real.sin 0, 0⟩ ∧
        (Curve.ellipse e).derivative Real.cos Real.sin 0 =
          ⟨-1 * Real.sin 0, 2 * Real.cos 0, 0⟩) ∧
      (∃ h, Helix.new (1 : ℝ) 2 = .ok h ∧
        (Curve.helix h).findPoint Real.cos Real.sin 0 =
          ⟨1 * Real.cos 0, 1 * Real.sin 0, 2 / (2 * PI) * 0⟩ ∧
        (Curve.helix h).derivative Real.cos Real.sin 0 =
          ⟨-1 * Real.sin 0, 1 * Real.cos 0, 2 / (2 * PI)⟩)) :=
  ⟨by norm_num, by norm_num,
    findPoint_derivative_table Real.cos Real.sin 1 2 0 (by norm_num) (by norm_num)⟩

theorem hasDerivAt_const_mul_cos (a t : ℝ) :
    HasDerivAt (fun s => a * Real.cos s) (-1 * a * Real.sin t) t := by
  have h := (Real.hasDerivAt_cos t).const_mul a
  have e : a * -Real.sin t = -1 * a * Real.sin t := by ring
  rw [e] at h
  exact h

theorem hasDerivAt_const_mul_sin (a t : ℝ) :
    HasDerivAt (fun s => a * Real.sin s) (a * Real.cos t) t :=
  (Real.hasDerivAt_sin t).const_mul a

theorem hasDerivAt_const_mul_id (a t : ℝ) : HasDerivAt (fun s => a * s) a t := by
  have h := (hasDerivAt_id t).const_mul a
  rw [mul_one] at h
  exact h

/-- C5: for every variant built from positive parameters and every real `t`,
`derivative(t)` is the analytic derivative of `findPoint` at `t`, coordinate
by coordinate. -/
theorem derivative_is_analytic_derivative (r p t : ℝ) (hr : 0 < r) (hp : 0 < p) :
    (∃ c, Circle.new r = .ok c ∧
      IsDerivativeAt ((Curve.circle c).findPoint Real.cos Real.sin)
        ((Curve.circle c).derivative Real.cos Real.sin) t) ∧
    (∃ e, Ellipse.new r p = .ok e ∧
      IsDerivativeAt ((Curve.ellipse e).findPoint Real.cos Real.sin)
        ((Curve.ellipse e).derivative Real.cos Real.sin) t) ∧
    (∃ h, Helix.new r p = .ok h ∧
      IsDerivativeAt ((Curve.helix h).findPoint Real.cos Real.sin)
        ((Curve.helix h).derivative Real.cos Real.sin) t) := by
  refine ⟨⟨_, circle_new_of_pos hr, ?_, ?_, ?_⟩, ⟨_, ellipse_new_of_pos hr hp, ?_, ?_, ?_⟩,
    ⟨_, helix_new_of_pos hr hp, ?_, ?_, ?_⟩⟩
  · exact hasDerivAt_const_mul_cos r t
  · exact hasDerivAt_const_mul_sin r t
  · exact hasDerivAt_const t (0 : ℝ)
  · exact hasDerivAt_const_mul_cos r t
  · exact hasDerivAt_const_mul_sin p t
  · exact hasDerivAt_const t (0 : ℝ)
  · exact hasDerivAt_const_mul_cos r t
  · exact hasDerivAt_const_mul_sin r t
  · exact hasDerivAt_const_mul_id (p / (2 * PI)) t

/-- C5, witness: radius 1, second parameter 2, at `t = 0`. -/
theorem derivative_is_analytic_derivative_witness :
    (0 : ℝ) < 1 ∧ (0 : ℝ) < 2 ∧
    ((∃ c, Circle.new (1 : ℝ) = .ok c ∧
        IsDerivativeAt ((Curve.circle c).findPoint Real.cos Real.sin)
          ((Curve.circle c).derivative Real.cos Real.sin) 0) ∧
      (∃ e, Ellipse.new (1 : ℝ) 2 = .ok e ∧
        IsDerivativeAt ((Curve.ellipse e).findPoint Real.cos Real.sin)
          ((Curve.ellipse e).derivative Real.cos Real.sin) 0) ∧
      (∃ h, Helix.new (1 : ℝ) 2 = .ok h ∧
        IsDerivativeAt ((Curve.helix h).findPoint Real.cos Real.sin)
          ((Curve.helix h).derivative Real.cos Real.sin) 0)) :=
  ⟨by norm_num, by norm_num,
    derivative_is_analytic_derivative 1 2 0 (by norm_num) (by norm_num)⟩

/-! ## Filtering -/

theorem dynamic_pointer_cast_Circle_eq {β : Type} (p : SharedPtr β) :
    dynamic_pointer_cast_Circle p = if p.obj.isCircle then some p else none := by
  rcases p with ⟨a, o⟩
  cases o <;> rfl

theorem fillVectorWithCircles_eq_append_filter {β : Type}
    (curves onlyCircles : List (SharedPtr β)) :
    fillVectorWithCircles curves onlyCircles =
      onlyCircles ++ curves.filter (fun p => p.obj.isCircle) := by
  unfold fillVectorWithCircles
  induction curves generalizing onlyCircles with
  | nil => simp
  | cons p ps ih =>
    rw [List.foldl_cons, ih, dynamic_pointer_cast_Circle_eq]
    by_cases hp : p.obj.isCircle = true
    · simp [hp, List.filter_cons]
    · simp [hp, List.filter_cons]

/-- C7: run on an empty destination, `fillVectorWithCircles` returns the
population filtered by "the runtime variant is Circle": only circles, exactly
the circle entries of the population, in their relative order (a sublist), as
many as the population has circles. -/
theorem fillVectorWithCircles_empty {β : Type} (curves : List (SharedPtr β)) :
    fillVectorWithCircles curves [] = curves.filter (fun p => p.obj.isCircle) ∧
    (∀ p ∈ fillVectorWithCircles curves [], p.obj.isCircle = true) ∧
    (∀ p, p ∈ fillVectorWithCircles curves [] ↔ p ∈ curves ∧ p.obj.isCircle = true) ∧
    List.Sublist (fillVectorWithCircles curves []) curves ∧
    (fillVectorWithCircles curves []).length = curves.countP (fun p => p.obj.isCircle) := by
  have h := fillVectorWithCircles_eq_append_filter curves []
  rw [List.nil_append] at h
  rw [h]
  refine ⟨rfl, ?_, ?_, List.filter_sublist curves, ?_⟩
  · intro p hp
    exact (List.mem_filter.mp hp).2
  · intro p
    exact List.mem_filter
  · exact (List.countP_eq_length_filter _ curves).symm

/-! ## Sorting -/

theorem radiusLess_eq_true {a b : SharedPtr α} :
    radiusLess a b = true ↔ a.obj.getRadius < b.obj.getRadius := by
  simp [radiusLess]

theorem radiusLess_eq_false {a b : SharedPtr α} :
    radiusLess a b = false ↔ b.obj.getRadius ≤ a.obj.getRadius := by
  simp [radiusLess]

theorem strictWeakOrdering_radiusLess :
    StrictWeakOrdering (radiusLess : SharedPtr α → SharedPtr α → Bool) where
  irrefl a := radiusLess_eq_false.mpr le_rfl
  trans a b c hab hbc :=
    radiusLess_eq_true.mpr (lt_trans (radiusLess_eq_true.mp hab) (radiusLess_eq_true.mp hbc))
  incomp_trans a b c hab hba hbc hcb := by
    rw [radiusLess_eq_false] at hab hba hbc hcb
    exact ⟨radiusLess_eq_false.mpr (le_trans hbc hab),
      radiusLess_eq_false.mpr (le_trans hba hcb)⟩

theorem strictWeakOrdering_asymm {β : Type} {comp : β → β → Bool}
    (h : StrictWeakOrdering comp) {a b : β} (hab : comp a b = true) : comp b a = false := by
  cases hba : comp b a with
  | false => rfl
  | true =>
    have haa := h.trans a b a hab hba
    rw [h.irrefl a] at haa
    exact absurd haa (by decide)

theorem strictWeakOrdering_not_less_trans {β : Type} {comp : β → β → Bool}
    (h : StrictWeakOrdering comp) {a b c : β} (hba : comp b a = false)
    (hcb : comp c b = false) : comp c a = false := by
  cases hca : comp c a with
  | false => rfl
  | true =>
    cases hab : comp a b with
    | true =>
      have hcb2 := h.trans c a b hca hab
      rw [hcb] at hcb2
      exact absurd hcb2 (by decide)
    | false =>
      cases hbc : comp b c with
      | true =>
        have hba2 := h.trans b c a hbc hca
        rw [hba] at hba2
        exact absurd hba2 (by decide)
      | false =>
        have hac := (h.incomp_trans a b c hab hba hbc hcb).2
        rw [hca] at hac
        exact absurd hac (by decide)

theorem sorted_insertionSort_of_strictWeakOrdering {β : Type} {comp : β → β → Bool}
    (h : StrictWeakOrdering comp) (l : List β) :
    List.Pairwise (fun a b => comp b a = false)
      (List.insertionSort (fun a b => comp b a = false) l) := by
  haveI : IsTotal β (fun a b => comp b a = false) :=
    ⟨fun a b => by
      cases hba : comp b a with
      | false => exact Or.inl rfl
      | true => exact Or.inr (strictWeakOrdering_asymm h hba)⟩
  haveI : IsTrans β (fun a b => comp b a = false) :=
    ⟨fun a b c hab hbc => strictWeakOrdering_not_less_trans h hab hbc⟩
  exact List.sorted_insertionSort (fun a b => comp b a = false) l

theorem stdSort_insertionStdSort {β : Type} :
    StdSort (insertionStdSort : (β → β → Bool) → List β → List β) where
  perm _ l _ := List.perm_insertionSort _ l
  sorted _ l h := sorted_insertionSort_of_strictWeakOrdering h l

theorem sortCircles_perm {sort : (SharedPtr α → SharedPtr α → Bool) → List (SharedPtr α) →
    List (SharedPtr α)} (hsort : StdSort sort) (l : List (SharedPtr α)) :
    List.Perm (sortCircles sort l) l :=
  hsort.perm radiusLess l strictWeakOrdering_radiusLess

theorem sortCircles_pairwise {sort : (SharedPtr α → SharedPtr α → Bool) →
    List (SharedPtr α) → List (SharedPtr α)} (hsort : StdSort sort) (l : List (SharedPtr α)) :
    List.Pairwise (fun a b => a.obj.getRadius ≤ b.obj.getRadius) (sortCircles sort l) :=
  (hsort.sorted radiusLess l strictWeakOrdering_radiusLess).imp
    (fun h => radiusLess_eq_false.mp h)

theorem radiSumLoop_range (l : List (SharedPtr α)) (init : α) (n : Nat) :
    (List.range n).foldl
      (fun acc i =>
        match l[i]? with
        | some p => acc + p.obj.getRadius
        | none => acc)
      init = init + ((l.take n).map (fun p => p.obj.getRadius)).sum := by
  induction n with
  | zero => simp
  | succ n ih =>
    rw [List.range_succ, List.foldl_append, ih, List.take_succ]
    cases h : l[n]? with
    | none => simp [h]
    | some p => simp [h, add_assoc]

theorem radiSumLoop_eq_sum (l : List (SharedPtr α)) (init : α) :
    radiSumLoop l init = init + (l.map (fun p => p.obj.getRadius)).sum := by
  unfold radiSumLoop
  rw [radiSumLoop_range, List.take_length]

/-! ## The demo pipeline -/

theorem sortCircles_pair
    {sort : (SharedPtr α → SharedPtr α → Bool) → List (SharedPtr α) → List (SharedPtr α)}
    (hsort : StdSort sort) {a b : SharedPtr α} (hlt : b.obj.getRadius < a.obj.getRadius) :
    sortCircles sort [a, b] = [b, a] := by
  have hperm := sortCircles_perm hsort [a, b]
  have hpw := sortCircles_pairwise hsort [a, b]
  have hlen := hperm.length_eq
  generalize sortCircles sort [a, b] = res at hperm hpw hlen
  match res, hlen with
  | [x, y], _ =>
    have hx : x ∈ [a, b] := hperm.subset (by simp)
    have hy : y ∈ [a, b] := hperm.subset (by simp)
    have ha : a ∈ [x, y] := hperm.symm.subset (by simp)
    have hb : b ∈ [x, y] := hperm.symm.subset (by simp)
    have hxy : x.obj.getRadius ≤ y.obj.getRadius := by
      have h := List.pairwise_cons.mp hpw
      exact h.1 y (by simp)
    simp only [List.mem_cons, List.mem_singleton, List.not_mem_nil, or_false] at hx hy ha hb
    rcases hx with rfl | rfl
    · rcases hy with rfl | rfl
      · rcases hb with rfl | rfl <;> exact absurd hlt (lt_irrefl _)
      · exact absurd hlt (not_lt.mpr hxy)
    · rcases hy with rfl | rfl
      · rfl
      · rcases ha with rfl | rfl <;> exact absurd hlt (lt_irrefl _)

/-- C12: the end-to-end example.  The three objects are constructed; the
circles of `[Circle(5), Ellipse(3, 4), Circle(2)]` are `[Circle(5),
Circle(2)]`; `sortCircles` turns that into `[Circle(2), Circle(5)]`; the sum
of the radii is 7. -/
theorem end_to_end_example
    (sort : (SharedPtr α → SharedPtr α → Bool) → List (SharedPtr α) → List (SharedPtr α))
    (hsort : StdSort sort) :
    Circle.new (5 : α) = .ok { radius := 5 } ∧
    Ellipse.new (3 : α) 4 = .ok { radius := 3, secondRadius := 4 } ∧
    Circle.new (2 : α) = .ok { radius := 2 } ∧
    fillVectorWithCircles (examplePopulation : List (SharedPtr α)) [] =
      ([make_shared 0 (.circle { radius := 5 }), make_shared 2 (.circle { radius := 2 })] :
        List (SharedPtr α)) ∧
    sortCircles sort (fillVectorWithCircles (examplePopulation : List (SharedPtr α)) []) =
      ([make_shared 2 (.circle { radius := 2 }), make_shared 0 (.circle { radius := 5 })] :
        List (SharedPtr α)) ∧
    radiSumLoop
      (sortCircles sort (fillVectorWithCircles (examplePopulation : List (SharedPtr α)) []))
      0 = 7 := by
  have hfill : fillVectorWithCircles (examplePopulation : List (SharedPtr α)) [] =
      ([make_shared 0 (.circle { radius := 5 }), make_shared 2 (.circle { radius := 2 })] :
        List (SharedPtr α)) := by
    rw [fillVectorWithCircles_eq_append_filter]
    simp [examplePopulation, make_shared, Curve.isCircle, List.filter_cons]
  have hsorted : sortCircles sort
      [make_shared 0 (.circle { radius := (5 : α) }), make_shared 2 (.circle { radius := 2 })] =
      ([make_shared 2 (.circle { radius := 2 }), make_shared 0 (.circle { radius := 5 })] :
        List (SharedPtr α)) := by
    apply sortCircles_pair hsort
    simp only [make_shared, Curve.getRadius]
    norm_num
  refine ⟨circle_new_of_pos (by norm_num), ellipse_new_of_pos (by norm_num) (by norm_num),
    circle_new_of_pos (by norm_num), hfill, ?_, ?_⟩
  · rw [hfill, hsorted]
  · rw [hfill, hsorted, radiSumLoop_eq_sum]
    simp only [make_shared, Curve.getRadius, List.map_cons, List.map_nil, List.sum_cons,
      List.sum_nil]
    norm_num

/-- C12, witness: the example over `ℚ`, sorted by insertion. -/
theorem end_to_end_example_witness :
    StdSort (insertionStdSort :
      (SharedPtr ℚ → SharedPtr ℚ → Bool) → List (SharedPtr ℚ) → List (SharedPtr ℚ)) ∧
    Circle.new (5 : ℚ) = .ok { radius := 5 } ∧
    Ellipse.new (3 : ℚ) 4 = .ok { radius := 3, secondRadius := 4 } ∧
    Circle.new (2 : ℚ) = .ok { radius := 2 } ∧
    fillVectorWithCircles (examplePopulation : List (SharedPtr ℚ)) [] =
      ([make_shared 0 (.circle { radius := 5 }), make_shared 2 (.circle { radius := 2 })] :
        List (SharedPtr ℚ)) ∧
    sortCircles insertionStdSort
        (fillVectorWithCircles (examplePopulation : List (SharedPtr ℚ)) []) =
      ([make_shared 2 (.circle { radius := 2 }), make_shared 0 (.circle { radius := 5 })] :
        List (SharedPtr ℚ)) ∧
    radiSumLoop
      (sortCircles insertionStdSort
        (fillVectorWithCircles (examplePopulation : List (SharedPtr ℚ)) []))
      0 = 7 :=
  ⟨stdSort_insertionStdSort, end_to_end_example insertionStdSort stdSort_insertionStdSort⟩

/-! ## The random population -/

theorem isRadiusDraw_cast {k : Int} (h : 1 ≤ k ∧ k ≤ 100) : IsRadiusDraw (k : α) :=
  ⟨k, h.1, h.2, rfl⟩

theorem isRadiusDraw_bounds {x : α} (h : IsRadiusDraw x) : 1 ≤ x ∧ x ≤ 100 := by
  obtain ⟨k, h1, h2, rfl⟩ := h
  exact ⟨by exact_mod_cast h1, by exact_mod_cast h2⟩

theorem cast_pos_of_draw {k : Int} (h : 1 ≤ k ∧ k ≤ 100) : (0 : α) < (k : α) := by
  have h0 : (0 : Int) < k := by omega
  exact_mod_cast h0

theorem drawTwo_range {G : Type} {R : RandomSource G} (hR : R.InRange)
    (leftToRight : Bool) (mt : G) :
    (1 ≤ (drawTwo R leftToRight mt).1.1 ∧ (drawTwo R leftToRight mt).1.1 ≤ 100) ∧
    (1 ≤ (drawTwo R leftToRight mt).1.2 ∧ (drawTwo R leftToRight mt).1.2 ≤ 100) := by
  have ha := hR.radi_range mt
  have hb := hR.radi_range (R.distCurvesRadi mt).2
  cases leftToRight
  · exact ⟨hb, ha⟩
  · exact ⟨ha, hb⟩

theorem fillVectorLoop_appends {G : Type} {R : RandomSource G} (hR : R.InRange)
    (leftToRight : Bool) (k : Nat) :
    ∀ (i : Nat) (mt : G) (curves : List (SharedPtr α)),
      ∃ made : List (SharedPtr α),
        fillVectorLoop R leftToRight k i mt curves = .ok (curves ++ made) ∧
        made.length = k ∧
        ∀ p ∈ made, ∀ x ∈ p.obj.parameters, IsRadiusDraw x := by
  induction k with
  | zero =>
    intro i mt curves
    exact ⟨[], by simp [fillVectorLoop], rfl, by simp⟩
  | succ k ih =>
    intro i mt curves
    have hty := hR.type_range mt
    by_cases h0 : (R.distCurvesType mt).1 = 0
    · have hr := hR.radi_range (R.distCurvesType mt).2
      obtain ⟨made, hrun, hlen, hall⟩ := ih (i + 1) (R.distCurvesRadi (R.distCurvesType mt).2).2
        (curves ++ [make_shared i (.circle
          { radius := (((R.distCurvesRadi (R.distCurvesType mt).2).1 : Int) : α) })])
      refine ⟨make_shared i (.circle
          { radius := (((R.distCurvesRadi (R.distCurvesType mt).2).1 : Int) : α) }) :: made,
        ?_, by simp [hlen], ?_⟩
      · rw [fillVectorLoop]
        simp only [h0, if_true, circle_new_of_pos (cast_pos_of_draw hr)]
        rw [hrun, List.append_assoc, List.singleton_append]
      · intro p hp x hx
        rcases List.mem_cons.mp hp with rfl | hp
        · simp only [make_shared, Curve.parameters, List.mem_singleton] at hx
          rw [hx]
          exact isRadiusDraw_cast hr
        · exact hall p hp x hx
    · by_cases h1 : (R.distCurvesType mt).1 = 1
      · have hd := drawTwo_range hR leftToRight (R.distCurvesType mt).2
        obtain ⟨made, hrun, hlen, hall⟩ := ih (i + 1)
          (drawTwo R leftToRight (R.distCurvesType mt).2).2
          (curves ++ [make_shared i (.ellipse
            { radius := (((drawTwo R leftToRight (R.distCurvesType mt).2).1.1 : Int) : α),
              secondRadius :=
                (((drawTwo R leftToRight (R.distCurvesType mt).2).1.2 : Int) : α) })])
        refine ⟨make_shared i (.ellipse
            { radius := (((drawTwo R leftToRight (R.distCurvesType mt).2).1.1 : Int) : α),
              secondRadius :=
                (((drawTwo R leftToRight (R.distCurvesType mt).2).1.2 : Int) : α) }) :: made,
          ?_, by simp [hlen], ?_⟩
        · rw [fillVectorLoop]
          simp only [h0, if_false]
          simp only [h1, if_true,
            ellipse_new_of_pos (cast_pos_of_draw hd.1) (cast_pos_of_draw hd.2)]
          rw [hrun, List.append_assoc, List.singleton_append]
        · intro p hp x hx
          rcases List.mem_cons.mp hp with rfl | hp
          · simp only [make_shared, Curve.parameters, List.mem_cons, List.mem_singleton,
              List.not_mem_nil, or_false] at hx
            rcases hx with rfl | rfl
            · exact isRadiusDraw_cast hd.1
            · exact isRadiusDraw_cast hd.2
          · exact hall p hp x hx
      · have h2 : (R.distCurvesType mt).1 = 2 := by omega
        have hd := drawTwo_range hR leftToRight (R.distCurvesType mt).2
        obtain ⟨made, hrun, hlen, hall⟩ := ih (i + 1)
          (drawTwo R leftToRight (R.distCurvesType mt).2).2
          (curves ++ [make_shared i (.helix
            { radius := (((drawTwo R leftToRight (R.distCurvesType mt).2).1.1 : Int) : α),
              step := (((drawTwo R leftToRight (R.distCurvesType mt).2).1.2 : Int) : α) })])
        refine ⟨make_shared i (.helix
            { radius := (((drawTwo R leftToRight (R.distCurvesType mt).2).1.1 : Int) : α),
              step := (((drawTwo R leftToRight (R.distCurvesType mt).2).1.2 : Int) : α) })
            :: made,
          ?_, by simp [hlen], ?_⟩
        · rw [fillVectorLoop]
          simp only [h0, h1, if_false]
          simp only [h2, if_true,
            helix_new_of_pos (cast_pos_of_draw hd.1) (cast_pos_of_draw hd.2)]
          rw [hrun, List.append_assoc, List.singleton_append]
        · intro p hp x hx
          rcases List.mem_cons.mp hp with rfl | hp
          · simp only [make_shared, Curve.parameters, List.mem_cons, List.mem_singleton,
              List.not_mem_nil, or_false] at hx
            rcases hx with rfl | rfl
            · exact isRadiusDraw_cast hd.1
            · exact isRadiusDraw_cast hd.2
          · exact hall p hp x hx

theorem counterSource_inRange : counterSource.InRange where
  type_range n := by
    simp only [counterSource]
    omega
  radi_range n := by
    simp only [counterSource]
    omega

/-- C13: with every draw in the range of its distribution, `fillVector` run on
an empty vector with `n >= 0` returns a vector of exactly `n` entries, each a
`Circle`, an `Ellipse` or a `Helix` whose radius-like members all are integers
drawn between 1 and 100. -/
theorem fillVector_population {G : Type} (R : RandomSource G) (hR : R.InRange)
    (leftToRight : Bool) (mt : G) (n : Nat) :
    ∃ curves : List (SharedPtr α),
      fillVector R leftToRight mt [] (n : Int) = .ok curves ∧ curves.length = n ∧
      ∀ p ∈ curves,
        ((∃ c, p.obj = .circle c) ∨ (∃ e, p.obj = .ellipse e) ∨ (∃ h, p.obj = .helix h)) ∧
        ∀ x ∈ p.obj.parameters, IsRadiusDraw x ∧ 1 ≤ x ∧ x ≤ 100 := by
  obtain ⟨made, hrun, hlen, hall⟩ :=
    fillVectorLoop_appends hR leftToRight n 0 mt ([] : List (SharedPtr α))
  refine ⟨made, ?_, hlen, ?_⟩
  · rw [fillVector, Int.toNat_ofNat, hrun, List.nil_append]
  · intro p hp
    refine ⟨?_, fun x hx => ⟨hall p hp x hx, isRadiusDraw_bounds (hall p hp x hx)⟩⟩
    cases hobj : p.obj with
    | circle c => exact Or.inl ⟨c, rfl⟩
    | ellipse e => exact Or.inr (Or.inl ⟨e, rfl⟩)
    | helix h => exact Or.inr (Or.inr ⟨h, rfl⟩)

/-- C13, witness: three curves from the counter source over `ℚ`. -/
theorem fillVector_population_witness :
    counterSource.InRange ∧
    ∃ curves : List (SharedPtr ℚ),
      fillVector counterSource true 0 [] ((3 : Nat) : Int) = .ok curves ∧ curves.length = 3 ∧
      ∀ p ∈ curves,
        ((∃ c, p.obj = .circle c) ∨ (∃ e, p.obj = .ellipse e) ∨ (∃ h, p.obj = .helix h)) ∧
        ∀ x ∈ p.obj.parameters, IsRadiusDraw x ∧ 1 ≤ x ∧ x ≤ 100 :=
  ⟨counterSource_inRange, fillVector_population counterSource counterSource_inRange true 0 3⟩

/-- C14: the demo never throws.  Every constructor call on radius draws between
1 and 100 returns an object, and with every draw in range neither `fillVector`
(whatever the vector and the count it is given) nor `startExample` ends in
the exception of a constructor. -/
theorem fillVector_never_throws {G : Type} (R : RandomSource G) (hR : R.InRange)
    (leftToRight : Bool)
    (sort : (SharedPtr α → SharedPtr α → Bool) → List (SharedPtr α) → List (SharedPtr α))
    (mt : G) (curves : List (SharedPtr α)) (numberOfCurves : Int) :
    (∀ k1 k2 : Int, 1 ≤ k1 ∧ k1 ≤ 100 → 1 ≤ k2 ∧ k2 ≤ 100 →
      (∃ c, Circle.new (k1 : α) = .ok c) ∧
      (∃ e, Ellipse.new (k1 : α) (k2 : α) = .ok e) ∧
      (∃ h, Helix.new (k1 : α) (k2 : α) = .ok h)) ∧
    (∃ out, fillVector R leftToRight mt curves numberOfCurves = .ok out) ∧
    (∀ e, fillVector R leftToRight mt curves numberOfCurves ≠ .error e) ∧
    (∃ sum, startExample R leftToRight sort mt = .ok sum) ∧
    (∀ e, startExample R leftToRight sort mt ≠ .error e) := by
  obtain ⟨made, hrun, -, -⟩ :=
    fillVectorLoop_appends hR leftToRight numberOfCurves.toNat 0 mt curves
  obtain ⟨made100, hrun100, -, -⟩ :=
    fillVectorLoop_appends hR leftToRight (100 : Int).toNat 0 mt ([] : List (SharedPtr α))
  have hfill : fillVector R leftToRight mt curves numberOfCurves = .ok (curves ++ made) := hrun
  have hstart : startExample R leftToRight sort mt =
      .ok (radiSumLoop (sortCircles sort (fillVectorWithCircles ([] ++ made100) [])) 0) := by
    unfold startExample fillVector
    rw [hrun100]
  refine ⟨?_, ⟨_, hfill⟩, ?_, ⟨_, hstart⟩, ?_⟩
  · intro k1 k2 h1 h2
    exact ⟨⟨_, circle_new_of_pos (cast_pos_of_draw h1)⟩,
      ⟨_, ellipse_new_of_pos (cast_pos_of_draw h1) (cast_pos_of_draw h2)⟩,
      ⟨_, helix_new_of_pos (cast_pos_of_draw h1) (cast_pos_of_draw h2)⟩⟩
  · intro e he
    rw [hfill] at he
    cases he
  · intro e he
    rw [hstart] at he
    cases he

/-- C14, witness: the counter source over `ℚ`, insertion sort, ten curves. -/
theorem fillVector_never_throws_witness :
    counterSource.InRange ∧
    (∀ k1 k2 : Int, 1 ≤ k1 ∧ k1 ≤ 100 → 1 ≤ k2 ∧ k2 ≤ 100 →
      (∃ c, Circle.new (k1 : ℚ) = .ok c) ∧
      (∃ e, Ellipse.new (k1 : ℚ) (k2 : ℚ) = .ok e) ∧
      (∃ h, Helix.new (k1 : ℚ) (k2 : ℚ) = .ok h)) ∧
    (∃ out, fillVector counterSource true 0 ([] : List (SharedPtr ℚ)) 10 = .ok out) ∧
    (∀ e, fillVector counterSource true 0 ([] : List (SharedPtr ℚ)) 10 ≠ .error e) ∧
    (∃ sum : ℚ, startExample counterSource true insertionStdSort 0 = .ok sum) ∧
    (∀ e, startExample counterSource true insertionStdSort 0 ≠
      (.error e : Except Exception ℚ)) :=
  ⟨counterSource_inRange,
    fillVector_never_throws counterSource counterSource_inRange true insertionStdSort 0 [] 10⟩

/-! ## Frame of the filter, order of validation, degenerate cases -/

/-- C15 (as amended): called with a destination that is another vector than
the source, `fillVectorWithCircles` returns, leaves the source and every other
vector as they were, and appends to the destination: the destination
afterwards is its initial content `d` followed by the circle entries of the
source in their order, which is the bare vector of circles exactly when `d` is
empty. -/
theorem fillVectorWithCircles_appends {β : Type} (mem : Nat → List (SharedPtr β))
    (capacity curves onlyCircles : Nat) (hne : curves ≠ onlyCircles) :
    ∃ mem', fillVectorWithCirclesAt mem capacity curves onlyCircles = some mem' ∧
      mem' curves = mem curves ∧
      (∀ v, v ≠ onlyCircles → mem' v = mem v) ∧
      mem' onlyCircles =
        mem onlyCircles ++ (mem curves).filter (fun p => p.obj.isCircle) ∧
      (mem' onlyCircles).take (mem onlyCircles).length = mem onlyCircles ∧
      (mem' onlyCircles = (mem curves).filter (fun p => p.obj.isCircle) ↔
        mem onlyCircles = []) := by
  refine ⟨_, if_neg hne, ?_, ?_, ?_, ?_, ?_⟩
  · exact Function.update_noteq hne _ _
  · intro v hv
    exact Function.update_noteq hv _ _
  · rw [Function.update_same, fillVectorWithCircles_eq_append_filter]
  · rw [Function.update_same, fillVectorWithCircles_eq_append_filter]
    exact List.take_left' rfl
  · rw [Function.update_same, fillVectorWithCircles_eq_append_filter]
    exact List.append_left_eq_self

/-- C15, witness: the circles of the vector at 0 of `oneCircleMemory` appended
to the empty vector at 1. -/
theorem fillVectorWithCircles_appends_witness :
    (0 : Nat) ≠ 1 ∧
    ∃ mem', fillVectorWithCirclesAt oneCircleMemory 0 0 1 = some mem' ∧
      mem' 0 = oneCircleMemory 0 ∧
      (∀ v, v ≠ 1 → mem' v = oneCircleMemory v) ∧
      mem' 1 =
        oneCircleMemory 1 ++ (oneCircleMemory 0).filter (fun p => p.obj.isCircle) ∧
      (mem' 1).take (oneCircleMemory 1).length = oneCircleMemory 1 ∧
      (mem' 1 = (oneCircleMemory 0).filter (fun p => p.obj.isCircle) ↔
        oneCircleMemory 1 = []) :=
  ⟨by decide, fillVectorWithCircles_appends oneCircleMemory 0 0 1 (by decide)⟩

/-- C15, counterexample: called with the vector at 0 of `oneCircleMemory` as
source and as destination (capacity 1), `fillVectorWithCircles` pushes the
circle into the vector it iterates over: the source holds one entry before the
call and two after it. -/
theorem fillVectorWithCircles_aliased :
    unitCircle.obj.isCircle = true ∧
    oneCircleMemory 0 = [unitCircle] ∧
    (fillVectorWithCirclesAt oneCircleMemory 1 0 0).map (fun mem' => mem' 0) =
      some [unitCircle, unitCircle] ∧
    (fillVectorWithCirclesAt oneCircleMemory 1 0 0).map (fun mem' => mem' 0) ≠
      some (oneCircleMemory 0) := by
  refine ⟨by decide!, by decide!, by decide!, by decide!⟩

/-- C18: a circle is the degenerate case of the other variants.  For `r > 0`
the points and derivatives of `Ellipse(r, r)` are those of `Circle(r)`, and for
`step > 0` the `x` and `y` coordinates of the points and derivatives of
`Helix(r, step)` are those of `Circle(r)`. -/
theorem circle_is_degenerate_case (cos sin : α → α) (r step t : α) (hr : 0 < r)
    (hs : 0 < step) :
    ∃ c e h, Circle.new r = .ok c ∧ Ellipse.new r r = .ok e ∧ Helix.new r step = .ok h ∧
      e.findPoint cos sin t = c.findPoint cos sin t ∧
      e.derivative cos sin t = c.derivative cos sin t ∧
      (h.findPoint cos sin t).x = (c.findPoint cos sin t).x ∧
      (h.findPoint cos sin t).y = (c.findPoint cos sin t).y ∧
      (h.derivative cos sin t).x = (c.derivative cos sin t).x ∧
      (h.derivative cos sin t).y = (c.derivative cos sin t).y :=
  ⟨_, _, _, circle_new_of_pos hr, ellipse_new_of_pos hr hr, helix_new_of_pos hr hs,
    rfl, rfl, rfl, rfl, rfl, rfl⟩

/-- C18, witness: radius 2, step 3, `t = 1` over `ℝ`. -/
theorem circle_is_degenerate_case_witness :
    (0 : ℝ) < 2 ∧ (0 : ℝ) < 3 ∧
    ∃ c e h, Circle.new (2 : ℝ) = .ok c ∧ Ellipse.new (2 : ℝ) 2 = .ok e ∧
      Helix.new (2 : ℝ) 3 = .ok h ∧
      e.findPoint Real.cos Real.sin 1 = c.findPoint Real.cos Real.sin 1 ∧
      e.derivative Real.cos Real.sin 1 = c.derivative Real.cos Real.sin 1 ∧
      (h.findPoint Real.cos Real.sin 1).x = (c.findPoint Real.cos Real.sin 1).x ∧
      (h.findPoint Real.cos Real.sin 1).y = (c.findPoint Real.cos Real.sin 1).y ∧
      (h.derivative Real.cos Real.sin 1).x = (c.derivative Real.cos Real.sin 1).x ∧
      (h.derivative Real.cos Real.sin 1).y = (c.derivative Real.cos Real.sin 1).y :=
  ⟨by norm_num, by norm_num,
    circle_is_degenerate_case Real.cos Real.sin 2 3 1 (by norm_num) (by norm_num)⟩

/-! ## Order of the doubles -/

theorem double_lt_iff (a b : Double) : a < b ↔ Double.lt a b = true := Iff.rfl

theorem double_le_iff (a b : Double) : a ≤ b ↔ Double.le a b = true := Iff.rfl

theorem double_not_lt_nan_left (a : Double) : ¬ (Double.nan < a) := by
  rw [double_lt_iff]
  cases a <;> simp [Double.lt]

theorem double_not_lt_nan_right (a : Double) : ¬ (a < Double.nan) := by
  rw [double_lt_iff]
  cases a <;> simp [Double.lt]

theorem double_lt_irrefl (a : Double) : ¬ (a < a) := by
  rw [double_lt_iff]
  cases a with
  | nan => simp [Double.lt]
  | inf s => cases s <;> simp [Double.lt]
  | fin k => simp [Double.lt]

theorem double_lt_trans {a b c : Double} (hab : a < b) (hbc : b < c) : a < c := by
  rw [double_lt_iff] at *
  cases a with
  | nan => simp [Double.lt] at hab
  | inf s =>
    cases b with
    | nan => simp [Double.lt] at hab
    | inf s' =>
      cases c with
      | nan => simp [Double.lt] at hbc
      | inf s'' => cases s <;> cases s' <;> cases s'' <;> simp_all [Double.lt]
      | fin k => cases s <;> cases s' <;> simp_all [Double.lt]
    | fin k =>
      cases c with
      | nan => simp [Double.lt] at hbc
      | inf s'' => cases s <;> cases s'' <;> simp_all [Double.lt]
      | fin k' => cases s <;> simp_all [Double.lt]
  | fin k =>
    cases b with
    | nan => simp [Double.lt] at hab
    | inf s' =>
      cases c with
      | nan => simp [Double.lt] at hbc
      | inf s'' => cases s' <;> cases s'' <;> simp_all [Double.lt]
      | fin k' => cases s' <;> simp_all [Double.lt]
    | fin k' =>
      cases c with
      | nan => simp [Double.lt] at hbc
      | inf s'' => cases s'' <;> simp_all [Double.lt]
      | fin k'' =>
        simp only [Double.lt, decide_eq_true_eq] at *
        omega

theorem double_le_of_not_lt {a b : Double} (ha : a.isNaN = false) (hb : b.isNaN = false)
    (h : ¬ (b < a)) : a ≤ b := by
  rw [double_lt_iff] at h
  rw [double_le_iff]
  cases a with
  | nan => simp [Double.isNaN] at ha
  | inf s =>
    cases b with
    | nan => simp [Double.isNaN] at hb
    | inf s' => cases s <;> cases s' <;> simp_all [Double.lt, Double.le]
    | fin k => cases s <;> simp_all [Double.lt, Double.le]
  | fin k =>
    cases b with
    | nan => simp [Double.isNaN] at hb
    | inf s' => cases s' <;> simp_all [Double.lt, Double.le]
    | fin k' =>
      simp only [Double.lt, Double.le, decide_eq_true_eq] at *
      omega

theorem double_not_lt_of_le {a b : Double} (h : a ≤ b) : ¬ (b < a) := by
  rw [double_lt_iff]
  rw [double_le_iff] at h
  cases a with
  | nan => simp [Double.le] at h
  | inf s =>
    cases b with
    | nan => simp [Double.le] at h
    | inf s' => cases s <;> cases s' <;> simp_all [Double.lt, Double.le]
    | fin k => cases s <;> simp_all [Double.lt, Double.le]
  | fin k =>
    cases b with
    | nan => simp [Double.le] at h
    | inf s' => cases s' <;> simp_all [Double.lt, Double.le]
    | fin k' =>
      simp only [Double.lt, Double.le, decide_eq_true_eq] at *
      omega

theorem double_le_antisymm {a b : Double} (hab : a ≤ b) (hba : b ≤ a) : a = b := by
  rw [double_le_iff] at hab hba
  cases a with
  | nan => simp [Double.le] at hab
  | inf s =>
    cases b with
    | nan => simp [Double.le] at hab
    | inf s' => cases s <;> cases s' <;> simp_all [Double.le]
    | fin k => cases s <;> simp_all [Double.le]
  | fin k =>
    cases b with
    | nan => simp [Double.le] at hab
    | inf s' => cases s' <;> simp_all [Double.le]
    | fin k' =>
      simp only [Double.le, decide_eq_true_eq] at *
      have : k = k' := by omega
      rw [this]

theorem double_le_trans {a b c : Double} (hab : a ≤ b) (hbc : b ≤ c) : a ≤ c := by
  rw [double_le_iff] at *
  cases a with
  | nan => simp [Double.le] at hab
  | inf s =>
    cases b with
    | nan => simp [Double.le] at hab
    | inf s' =>
      cases c with
      | nan => simp [Double.le] at hbc
      | inf s'' => cases s <;> cases s' <;> cases s'' <;> simp_all [Double.le]
      | fin k => cases s <;> cases s' <;> simp_all [Double.le]
    | fin k =>
      cases c with
      | nan => simp [Double.le] at hbc
      | inf s'' => cases s <;> cases s'' <;> simp_all [Double.le]
      | fin k' => cases s <;> simp_all [Double.le]
  | fin k =>
    cases b with
    | nan => simp [Double.le] at hab
    | inf s' =>
      cases c with
      | nan => simp [Double.le] at hbc
      | inf s'' => cases s' <;> cases s'' <;> simp_all [Double.le]
      | fin k' => cases s' <;> simp_all [Double.le]
    | fin k' =>
      cases c with
      | nan => simp [Double.le] at hbc
      | inf s'' => cases s'' <;> simp_all [Double.le]
      | fin k'' =>
        simp only [Double.le, decide_eq_true_eq] at *
        omega

theorem double_le_total {a b : Double} (ha : a.isNaN = false) (hb : b.isNaN = false) :
    a ≤ b ∨ b ≤ a := by
  by_cases h : b < a
  · right
    by_cases h' : a < b
    · exact absurd (double_lt_trans h h') (double_lt_irrefl b)
    · exact double_le_of_not_lt hb ha h'
  · exact Or.inl (double_le_of_not_lt ha hb h)

/-! ## Sorting doubles -/

theorem strictWeakOrderingOn_asymm {β : Type} {comp : β → β → Bool} {l : List β}
    (h : StrictWeakOrderingOn comp l) {a b : β} (ha : a ∈ l) (hb : b ∈ l)
    (hab : comp a b = true) : comp b a = false := by
  cases hba : comp b a with
  | false => rfl
  | true =>
    have haa := h.trans a ha b hb a ha hab hba
    rw [h.irrefl a ha] at haa
    exact absurd haa (by decide)

theorem strictWeakOrderingOn_not_less_trans {β : Type} {comp : β → β → Bool} {l : List β}
    (h : StrictWeakOrderingOn comp l) {a b c : β} (ha : a ∈ l) (hb : b ∈ l) (hc : c ∈ l)
    (hba : comp b a = false) (hcb : comp c b = false) : comp c a = false := by
  cases hca : comp c a with
  | false => rfl
  | true =>
    cases hab : comp a b with
    | true =>
      have hcb2 := h.trans c hc a ha b hb hca hab
      rw [hcb] at hcb2
      exact absurd hcb2 (by decide)
    | false =>
      cases hbc : comp b c with
      | true =>
        have hba2 := h.trans b hb c hc a ha hbc hca
        rw [hba] at hba2
        exact absurd hba2 (by decide)
      | false =>
        have hac := (h.incomp_trans a ha b hb c hc hab hba hbc hcb).2
        rw [hca] at hac
        exact absurd hac (by decide)

theorem strictWeakOrderingOn_of_subset {β : Type} {comp : β → β → Bool} {l l' : List β}
    (h : StrictWeakOrderingOn comp l) (hsub : ∀ x ∈ l', x ∈ l) :
    StrictWeakOrderingOn comp l' where
  irrefl a ha := h.irrefl a (hsub a ha)
  trans a ha b hb c hc := h.trans a (hsub a ha) b (hsub b hb) c (hsub c hc)
  incomp_trans a ha b hb c hc :=
    h.incomp_trans a (hsub a ha) b (hsub b hb) c (hsub c hc)

theorem pairwise_orderedInsert_on {β : Type} (r : β → β → Prop) [DecidableRel r] (a : β)
    (l : List β) (htot : ∀ x ∈ l, r a x ∨ r x a)
    (htrans : ∀ x ∈ l, ∀ y ∈ l, r a x → r x y → r a y) (hs : l.Pairwise r) :
    (l.orderedInsert r a).Pairwise r := by
  induction l with
  | nil => simp
  | cons b l ih =>
    have hb := List.pairwise_cons.mp hs
    rw [List.orderedInsert]
    by_cases hab : r a b
    · rw [if_pos hab]
      refine List.pairwise_cons.mpr ⟨?_, hs⟩
      intro x hx
      rcases List.mem_cons.mp hx with rfl | hx
      · exact hab
      · exact htrans b (List.mem_cons_self _ _) x (List.mem_cons_of_mem _ hx) hab (hb.1 x hx)
    · rw [if_neg hab]
      refine List.pairwise_cons.mpr ⟨?_, ?_⟩
      · intro y hy
        rcases (List.mem_orderedInsert r).mp hy with rfl | hy
        · rcases htot b (List.mem_cons_self _ _) with h | h
          · exact absurd h hab
          · exact h
        · exact hb.1 y hy
      · exact ih (fun x hx => htot x (List.mem_cons_of_mem _ hx))
          (fun x hx y hy => htrans x (List.mem_cons_of_mem _ hx) y (List.mem_cons_of_mem _ hy))
          hb.2

theorem sorted_insertionSort_on {β : Type} {comp : β → β → Bool} (l : List β)
    (h : StrictWeakOrderingOn comp l) :
    List.Pairwise (fun a b => comp b a = false)
      (List.insertionSort (fun a b => comp b a = false) l) := by
  induction l with
  | nil => simp
  | cons b l ih =>
    have hl : StrictWeakOrderingOn comp l :=
      strictWeakOrderingOn_of_subset h (fun x hx => List.mem_cons_of_mem _ hx)
    rw [List.insertionSort]
    apply pairwise_orderedInsert_on
    · intro x hx
      have hx' : x ∈ b :: l := List.mem_cons_of_mem _ ((List.mem_insertionSort _).mp hx)
      cases hxb : comp x b with
      | false => exact Or.inl rfl
      | true => exact Or.inr (strictWeakOrderingOn_asymm h hx' (List.mem_cons_self _ _) hxb)
    · intro x hx y hy hbx hxy
      have hx' : x ∈ b :: l := List.mem_cons_of_mem _ ((List.mem_insertionSort _).mp hx)
      have hy' : y ∈ b :: l := List.mem_cons_of_mem _ ((List.mem_insertionSort _).mp hy)
      exact strictWeakOrderingOn_not_less_trans h (List.mem_cons_self _ _) hx' hy' hbx hxy
    · exact ih hl

theorem stdSortOn_insertionStdSort {β : Type} :
    StdSortOn (insertionStdSort : (β → β → Bool) → List β → List β) where
  perm _ l _ := List.perm_insertionSort _ l
  sorted _ l h := sorted_insertionSort_on l h

theorem radiusLess_double_eq_true {a b : SharedPtr Double} :
    radiusLess a b = true ↔ a.obj.getRadius < b.obj.getRadius := by
  simp [radiusLess]

theorem radiusLess_double_eq_false {a b : SharedPtr Double} :
    radiusLess a b = false ↔ ¬ (a.obj.getRadius < b.obj.getRadius) := by
  simp [radiusLess]

theorem strictWeakOrderingOn_radiusLess (l : List (SharedPtr Double))
    (hl : ∀ p ∈ l, p.obj.getRadius.isNaN = false) :
    StrictWeakOrderingOn radiusLess l where
  irrefl a _ := radiusLess_double_eq_false.mpr (double_lt_irrefl _)
  trans a _ b _ c _ hab hbc :=
    radiusLess_double_eq_true.mpr
      (double_lt_trans (radiusLess_double_eq_true.mp hab) (radiusLess_double_eq_true.mp hbc))
  incomp_trans a ha b hb c hc hab hba hbc hcb := by
    rw [radiusLess_double_eq_false] at hab hba hbc hcb
    have e1 : a.obj.getRadius = b.obj.getRadius :=
      double_le_antisymm (double_le_of_not_lt (hl a ha) (hl b hb) hba)
        (double_le_of_not_lt (hl b hb) (hl a ha) hab)
    have e2 : b.obj.getRadius = c.obj.getRadius :=
      double_le_antisymm (double_le_of_not_lt (hl b hb) (hl c hc) hcb)
        (double_le_of_not_lt (hl c hc) (hl b hb) hbc)
    refine ⟨radiusLess_double_eq_false.mpr ?_, radiusLess_double_eq_false.mpr ?_⟩
    · rw [e1, e2]
      exact double_lt_irrefl _
    · rw [e1, e2]
      exact double_lt_irrefl _

theorem sortCircles_double_perm
    {sort : (SharedPtr Double → SharedPtr Double → Bool) → List (SharedPtr Double) →
      List (SharedPtr Double)}
    (hsort : StdSortOn sort) (l : List (SharedPtr Double))
    (hl : ∀ p ∈ l, p.obj.getRadius.isNaN = false) :
    List.Perm (sortCircles sort l) l :=
  hsort.perm radiusLess l (strictWeakOrderingOn_radiusLess l hl)

theorem sortCircles_double_pairwise
    {sort : (SharedPtr Double → SharedPtr Double → Bool) → List (SharedPtr Double) →
      List (SharedPtr Double)}
    (hsort : StdSortOn sort) (l : List (SharedPtr Double))
    (hl : ∀ p ∈ l, p.obj.getRadius.isNaN = false) :
    List.Pairwise (fun a b => a.obj.getRadius ≤ b.obj.getRadius) (sortCircles sort l) := by
  have hp := sortCircles_double_perm hsort l hl
  have hs := hsort.sorted radiusLess l (strictWeakOrderingOn_radiusLess l hl)
  have hmem : ∀ p ∈ sortCircles sort l, p.obj.getRadius.isNaN = false :=
    fun p hp' => hl p (hp.subset hp')
  have hs' : List.Pairwise (fun a b => radiusLess b a = false) (sortCircles sort l) := hs
  generalize sortCircles sort l = res at hmem hs'
  induction hs' with
  | nil => exact List.Pairwise.nil
  | cons hhead _ ih =>
    refine List.Pairwise.cons ?_ (ih (fun p hp' => hmem p (List.mem_cons_of_mem _ hp')))
    intro b hb
    exact double_le_of_not_lt (hmem _ (List.mem_cons_self _ _))
      (hmem b (List.mem_cons_of_mem _ hb)) (radiusLess_double_eq_false.mp (hhead b hb))

/-- On doubles the first check decides alone whether the second one is
reached: the "Radius must be > 0" error is thrown exactly when `r <= 0` holds,
the error of the second parameter exactly when `r <= 0` fails and `p <= 0`
holds. -/
theorem double_validation_order (r p : Double) :
    (Ellipse.new r p = .error (.invalid_argument "Radius must be > 0") ↔ r ≤ 0) ∧
    (Helix.new r p = .error (.invalid_argument "Radius must be > 0") ↔ r ≤ 0) ∧
    (Ellipse.new r p = .error (.invalid_argument "Second radius must be > 0") ↔
      ¬ (r ≤ 0) ∧ p ≤ 0) ∧
    (Helix.new r p = .error (.invalid_argument "Step of helix must be > 0") ↔
      ¬ (r ≤ 0) ∧ p ≤ 0) := by
  by_cases hr : r ≤ 0 <;> by_cases hp : p ≤ 0 <;>
    simp [Ellipse.new, Helix.new, Curve.init, hr, hp]

/-- C16, the code at NaN: with a NaN first radius the check `NaN <= 0` fails,
the second check is reached, and `Ellipse(NaN, 0)` and `Helix(NaN, 0)` throw
the error of the second parameter although the first radius is not `> 0`. -/
theorem second_check_reached_with_nan :
    Ellipse.new Double.nan (0 : Double) =
      .error (.invalid_argument "Second radius must be > 0") ∧
    Helix.new Double.nan (0 : Double) =
      .error (.invalid_argument "Step of helix must be > 0") ∧
    ¬ ((0 : Double) < Double.nan) := by
  have hn : ¬ (Double.nan ≤ (0 : Double)) := by decide
  have h0 : (0 : Double) ≤ 0 := by decide
  refine ⟨?_, ?_, by decide⟩ <;> simp [Ellipse.new, Helix.new, Curve.init, hn, h0]

/-- C8, the code at NaN: `Circle(NaN)` and `Circle(1)` are constructed; on the
vector `[Circle(NaN), Circle(1)]` the `std::sort` of libstdc++ leaves the order
as it is, and in neither order of the two circles are the radii
non-decreasing.  On `[Circle(3), Circle(NaN), Circle(1), Circle(2)]` it returns
the entries in the order 2, 0, 1, 3, that is the radii 1, 3, NaN, 2: the radius
3 comes before the radius 2. -/
theorem sortCircles_nan_not_nondecreasing :
    Circle.new Double.nan = .ok { radius := Double.nan } ∧
    Circle.new (1 : Double) = .ok { radius := 1 } ∧
    libstdcxx.sort radiusLess nanAndOne = some nanAndOne ∧
    sortCircles gnuStdSort nanAndOne = nanAndOne ∧
    ¬ List.Pairwise (fun a b : SharedPtr Double => a.obj.getRadius ≤ b.obj.getRadius)
      nanAndOne ∧
    ¬ List.Pairwise (fun a b : SharedPtr Double => a.obj.getRadius ≤ b.obj.getRadius)
      nanAndOne.reverse ∧
    (libstdcxx.sort radiusLess threeNanOneTwo).map (fun res => res.map (fun p => p.addr)) =
      some [2, 0, 1, 3] ∧
    (sortCircles gnuStdSort threeNanOneTwo).map (fun p => p.obj.getRadius) =
      [1, 3, Double.nan, 2] ∧
    ¬ ((3 : Double) ≤ 2) ∧
    ¬ List.Pairwise (fun a b : SharedPtr Double => a.obj.getRadius ≤ b.obj.getRadius)
      (sortCircles gnuStdSort threeNanOneTwo) := by
  have h1 : ¬ ((1 : Double) ≤ 0) := by decide!
  have hn : ¬ (Double.nan ≤ (0 : Double)) := by decide
  refine ⟨?_, ?_, by decide!, by decide!, by decide!, by decide!, by decide!, by decide!,
    by decide!, by decide!⟩ <;>
    simp [Circle.new, Curve.init, h1, hn]

/-- C9 (as amended): `std::sort` fixes the order of the radii, not the order of
entries of equal radius.  For every vector of circles without a NaN radius and
every radius value, the entries of that radius are the same before and after
`sortCircles` (a permutation of each other), and the sequence of radii of the
result is the one insertion sort gives, whatever admissible `std::sort` is
used. -/
theorem sortCircles_ties
    (sort : (SharedPtr Double → SharedPtr Double → Bool) → List (SharedPtr Double) →
      List (SharedPtr Double))
    (hsort : StdSortOn sort) (l : List (SharedPtr Double))
    (hl : ∀ p ∈ l, p.obj.getRadius.isNaN = false) :
    (∀ r : Double, List.Perm
      ((sortCircles sort l).filter (fun p => decide (p.obj.getRadius = r)))
      (l.filter (fun p => decide (p.obj.getRadius = r)))) ∧
    (sortCircles sort l).map (fun p => p.obj.getRadius) =
      (sortCircles insertionStdSort l).map (fun p => p.obj.getRadius) := by
  refine ⟨fun r => (sortCircles_double_perm hsort l hl).filter _, ?_⟩
  haveI : IsAntisymm Double (· ≤ ·) := ⟨fun _ _ hab hba => double_le_antisymm hab hba⟩
  have hp : List.Perm ((sortCircles sort l).map (fun p => p.obj.getRadius))
      ((sortCircles insertionStdSort l).map (fun p => p.obj.getRadius)) :=
    ((sortCircles_double_perm hsort l hl).trans
      (sortCircles_double_perm stdSortOn_insertionStdSort l hl).symm).map _
  have h1 : List.Sorted (· ≤ ·) ((sortCircles sort l).map (fun p => p.obj.getRadius)) :=
    List.pairwise_map.mpr (sortCircles_double_pairwise hsort l hl)
  have h2 : List.Sorted (· ≤ ·)
      ((sortCircles insertionStdSort l).map (fun p => p.obj.getRadius)) :=
    List.pairwise_map.mpr (sortCircles_double_pairwise stdSortOn_insertionStdSort l hl)
  exact List.eq_of_perm_of_sorted hp h1 h2

/-- C9, witness: three circles of radii 5, 1, 5 sorted by insertion. -/
theorem sortCircles_ties_witness :
    StdSortOn (insertionStdSort : (SharedPtr Double → SharedPtr Double → Bool) →
      List (SharedPtr Double) → List (SharedPtr Double)) ∧
    (∀ p ∈ fiveOneFive, p.obj.getRadius.isNaN = false) ∧
    (∀ r : Double, List.Perm
      ((sortCircles insertionStdSort fiveOneFive).filter
        (fun p => decide (p.obj.getRadius = r)))
      (fiveOneFive.filter (fun p => decide (p.obj.getRadius = r)))) ∧
    (sortCircles insertionStdSort fiveOneFive).map (fun p => p.obj.getRadius) =
      (sortCircles insertionStdSort fiveOneFive).map (fun p => p.obj.getRadius) :=
  ⟨stdSortOn_insertionStdSort, by decide!,
    sortCircles_ties insertionStdSort stdSortOn_insertionStdSort fiveOneFive (by decide!)⟩

/-- C9, counterexample: on seventeen circles of radius 1, held at the addresses
0 to 16 in this order, the `std::sort` of GNU libstdc++ returns them in the
order 8, 16, 15, 14, 13, 12, 11, 10, 9, 0, 7, 6, 5, 4, 3, 2, 1: the ties are
not kept in input order. -/
theorem sortCircles_seventeen_ties :
    (∀ p ∈ seventeenTied, p.obj.isCircle = true ∧ p.obj.getRadius = 1) ∧
    (libstdcxx.sort radiusLess seventeenTied).map (fun res => res.map (fun p => p.addr)) =
      some [8, 16, 15, 14, 13, 12, 11, 10, 9, 0, 7, 6, 5, 4, 3, 2, 1] ∧
    (sortCircles gnuStdSort seventeenTied).map (fun p => p.addr) =
      [8, 16, 15, 14, 13, 12, 11, 10, 9, 0, 7, 6, 5, 4, 3, 2, 1] ∧
    ¬ TiesKeepOrder seventeenTied (sortCircles gnuStdSort seventeenTied) := by
  refine ⟨by decide!, by decide!, by decide!, ?_⟩
  intro h
  have h1 := h 1
  revert h1
  decide!

/-! ## Rounding error of the double operations -/

theorem halfEven_error (n b : Nat) (hb : 0 < b) :
    2 * (Double.halfEven n b * b) ≤ 2 * n + b ∧ 2 * n ≤ 2 * (Double.halfEven n b * b) + b := by
  have hdm : b * (n / b) + n % b = n := Nat.div_add_mod n b
  have hlt : n % b < b := Nat.mod_lt n hb
  have hq : n / b * b = b * (n / b) := Nat.mul_comm _ _
  have hq1 : (n / b + 1) * b = b * (n / b) + b := by rw [Nat.add_mul, Nat.one_mul, hq]
  unfold Double.halfEven
  split_ifs with h1 h2 h3
  · rw [hq]
    omega
  · rw [hq1]
    omega
  · rw [hq]
    omega
  · rw [hq1]
    omega

theorem bitSearch_spec (q : Nat) (fuel : Nat) :
    ∀ lo : Nat, (lo = 0 ∨ 2 ^ lo ≤ q) → q < 2 ^ (lo + 2 ^ fuel) →
      q < 2 ^ Double.bitSearch q fuel lo (lo + 2 ^ fuel) ∧
      1 ≤ Double.bitSearch q fuel lo (lo + 2 ^ fuel) ∧
      (Double.bitSearch q fuel lo (lo + 2 ^ fuel) = 1 ∨
        2 ^ (Double.bitSearch q fuel lo (lo + 2 ^ fuel) - 1) ≤ q) := by
  induction fuel with
  | zero =>
    intro lo hlo hq
    simp only [Double.bitSearch, pow_zero] at hq ⊢
    refine ⟨hq, by omega, ?_⟩
    rcases hlo with rfl | hlo
    · exact Or.inl rfl
    · exact Or.inr (by simpa using hlo)
  | succ fuel ih =>
    intro lo hlo hq
    have hmid : (lo + (lo + 2 ^ (fuel + 1))) / 2 = lo + 2 ^ fuel := by
      rw [pow_succ]
      omega
    have hhi : lo + 2 ^ (fuel + 1) = lo + 2 ^ fuel + 2 ^ fuel := by
      rw [pow_succ]
      omega
    rw [Double.bitSearch, hmid]
    by_cases hlt : q < 2 ^ (lo + 2 ^ fuel)
    · rw [if_pos hlt]
      exact ih lo hlo hlt
    · rw [if_neg hlt, hhi]
      exact ih (lo + 2 ^ fuel) (Or.inr (not_lt.mp hlt)) (by rw [← hhi]; exact hq)

theorem bitLength_spec (q : Nat) (hq : q < 2 ^ 4096) :
    q < 2 ^ Double.bitLength q ∧ 1 ≤ Double.bitLength q ∧
      (Double.bitLength q = 1 ∨ 2 ^ (Double.bitLength q - 1) ≤ q) := by
  have e : 0 + 2 ^ 12 = 4096 := by norm_num
  have h := bitSearch_spec q 12 0 (Or.inl rfl) (by rw [e]; exact hq)
  rw [e] at h
  exact h

theorem spacing_le (n d : Nat) (hq : n / d < 2 ^ 4096) :
    (2 : ℚ) ^ Double.spacing n d / 2 ≤ (n : ℚ) / d / 2 ^ 53 ∨ Double.spacing n d = 0 := by
  by_cases hj : Double.spacing n d = 0
  · exact Or.inr hj
  · left
    obtain ⟨-, -, hspec⟩ := bitLength_spec (n / d) hq
    have hj' : Double.bitLength (n / d) = Double.spacing n d + 53 := by
      unfold Double.spacing at hj ⊢
      omega
    have hne : Double.bitLength (n / d) ≠ 1 := by omega
    have hle : 2 ^ (Double.bitLength (n / d) - 1) ≤ n / d := by
      rcases hspec with h | h
      · exact absurd h hne
      · exact h
    have hexp : Double.bitLength (n / d) - 1 = Double.spacing n d + 52 := by omega
    rw [hexp] at hle
    have hle' : ((2 : ℚ) ^ (Double.spacing n d + 52)) ≤ ((n / d : Nat) : ℚ) := by
      exact_mod_cast hle
    have hdiv : ((n / d : Nat) : ℚ) ≤ (n : ℚ) / d := Nat.cast_div_le
    have hx : (2 : ℚ) ^ (Double.spacing n d + 52) ≤ (n : ℚ) / d := le_trans hle' hdiv
    have hpow : (2 : ℚ) ^ Double.spacing n d / 2 =
        (2 : ℚ) ^ (Double.spacing n d + 52) / 2 ^ 53 := by
      rw [pow_add]
      field_simp
      ring
    rw [hpow]
    exact div_le_div_of_nonneg_right hx (by positivity)

theorem roundUnits_abs_error (n d : Nat) (hd : 0 < d) :
    |(Double.roundUnits n d : ℚ) - (n : ℚ) / d| ≤ (2 : ℚ) ^ Double.spacing n d / 2 := by
  have hr : (Double.roundUnits n d : ℚ) =
      (Double.halfEven n (d * 2 ^ Double.spacing n d) : ℚ) * 2 ^ Double.spacing n d := by
    unfold Double.roundUnits
    push_cast
    ring
  rw [hr]
  generalize Double.spacing n d = j
  have hb : 0 < d * 2 ^ j := Nat.mul_pos hd (by positivity)
  obtain ⟨h1, h2⟩ := halfEven_error n (d * 2 ^ j) hb
  have hdq : (0 : ℚ) < d := by exact_mod_cast hd
  have h1q : 2 * ((Double.halfEven n (d * 2 ^ j) : ℚ) * ((d : ℚ) * 2 ^ j)) ≤
      2 * (n : ℚ) + (d : ℚ) * 2 ^ j := by
    exact_mod_cast h1
  have h2q : 2 * (n : ℚ) ≤
      2 * ((Double.halfEven n (d * 2 ^ j) : ℚ) * ((d : ℚ) * 2 ^ j)) + (d : ℚ) * 2 ^ j := by
    exact_mod_cast h2
  generalize (Double.halfEven n (d * 2 ^ j) : ℚ) = a at h1q h2q ⊢
  generalize (2 : ℚ) ^ j = p at h1q h2q ⊢
  have hnd : (n : ℚ) / d * d = n := div_mul_cancel₀ _ (ne_of_gt hdq)
  rw [abs_le]
  constructor
  · have : (n : ℚ) / d * d ≤ (a * p + p / 2) * d := by
      rw [hnd]
      nlinarith [h2q]
    have h := le_of_mul_le_mul_right this hdq
    linarith
  · have : (a * p - p / 2) * d ≤ (n : ℚ) / d * d := by
      rw [hnd]
      nlinarith [h1q]
    have h := le_of_mul_le_mul_right this hdq
    linarith

theorem roundUnits_error (n d : Nat) (hd : 0 < d) (hq : n / d < 2 ^ 4096) :
    |(Double.roundUnits n d : ℚ) - (n : ℚ) / d| ≤ (n : ℚ) / d / 2 ^ 53 + 1 / 2 ∧
    ((2 : ℚ) ^ 52 ≤ (n : ℚ) / d →
      |(Double.roundUnits n d : ℚ) - (n : ℚ) / d| ≤ (n : ℚ) / d / 2 ^ 53) := by
  have hx : (0 : ℚ) ≤ (n : ℚ) / d := div_nonneg (Nat.cast_nonneg n) (Nat.cast_nonneg d)
  have hx53 : (0 : ℚ) ≤ (n : ℚ) / d / 2 ^ 53 := div_nonneg hx (by norm_num)
  have habs := roundUnits_abs_error n d hd
  have hsp := spacing_le n d hq
  clear hq
  generalize (Double.roundUnits n d : ℚ) = r at habs ⊢
  generalize (n : ℚ) / d = x at habs hsp hx hx53 ⊢
  rcases hsp with h | h
  · generalize (2 : ℚ) ^ Double.spacing n d / 2 = e at habs h
    exact ⟨by linarith, fun _ => le_trans habs h⟩
  · rw [h] at habs
    simp only [pow_zero] at habs
    refine ⟨by linarith, fun h52 => le_trans habs ?_⟩
    have : (2 : ℚ) ^ 52 / 2 ^ 53 ≤ x / 2 ^ 53 :=
      div_le_div_of_nonneg_right h52 (by positivity)
    have e : (2 : ℚ) ^ 52 / 2 ^ 53 = 1 / 2 := by norm_num
    linarith

theorem abs_scaled_sub (neg : Bool) (r x U : ℚ) (hU : 0 < U) :
    |(if neg then -1 else 1) * r / U - (if neg then -1 else 1) * x / U| = |r - x| / U := by
  cases neg
  · simp only [Bool.false_eq_true, if_false, one_mul]
    rw [← sub_div, abs_div, abs_of_pos hU]
  · simp only [if_true]
    rw [← sub_div, abs_div, abs_of_pos hU, show -1 * r - -1 * x = -(r - x) by ring, abs_neg]

theorem toRat_fin_signed (neg : Bool) (r : Nat) :
    (Double.fin (if neg then -(r : Int) else (r : Int))).toRat =
      (if neg then -1 else 1) * (r : ℚ) / 2 ^ 1074 := by
  cases neg <;> simp [Double.toRat]

theorem isFinite_fin_signed (neg : Bool) (r : Nat) (hr : r < 2 ^ 2098) :
    (Double.fin (if neg then -(r : Int) else (r : Int))).IsFinite := by
  cases neg
  · show (r : Int).natAbs < 2 ^ 2098
    rw [Int.natAbs_ofNat]
    exact hr
  · show (-(r : Int)).natAbs < 2 ^ 2098
    rw [Int.natAbs_neg, Int.natAbs_ofNat]
    exact hr

theorem ofRatio_spec (neg : Bool) (n d : Nat) (hd : 0 < d) (hq : n / d < 2 ^ 4096)
    (hx : (n : ℚ) / d ≤ 2 ^ 2097) :
    (Double.ofRatio neg n d).IsFinite ∧
    |(Double.ofRatio neg n d).toRat - (if neg then -1 else 1) * ((n : ℚ) / d) / 2 ^ 1074| ≤
      ((n : ℚ) / d / 2 ^ 53 + 1 / 2) / 2 ^ 1074 ∧
    ((2 : ℚ) ^ 52 ≤ (n : ℚ) / d →
      |(Double.ofRatio neg n d).toRat - (if neg then -1 else 1) * ((n : ℚ) / d) / 2 ^ 1074| ≤
        (n : ℚ) / d / 2 ^ 53 / 2 ^ 1074) := by
  obtain ⟨herr, herr52⟩ := roundUnits_error n d hd hq
  clear hq
  have hrq : (Double.roundUnits n d : ℚ) < 2 ^ 2098 := by
    have h1 := (abs_le.mp herr).2
    have h2 : (n : ℚ) / d / 2 ^ 53 ≤ 2 ^ 2097 / 2 ^ 53 :=
      div_le_div_of_nonneg_right hx (by norm_num)
    have h3 : (2 : ℚ) ^ 2097 + 2 ^ 2097 / 2 ^ 53 + 1 / 2 < 2 ^ 2098 := by norm_num
    linarith
  have hr : Double.roundUnits n d < 2 ^ 2098 := by exact_mod_cast hrq
  have hof : Double.ofRatio neg n d =
      Double.fin (if neg then -(Double.roundUnits n d : Int) else (Double.roundUnits n d : Int)) := by
    unfold Double.ofRatio
    rw [if_neg (not_le.mpr hr)]
  have hU : (0 : ℚ) < 2 ^ 1074 := by positivity
  rw [hof, toRat_fin_signed, abs_scaled_sub neg _ _ _ hU]
  exact ⟨isFinite_fin_signed neg _ hr, div_le_div_of_nonneg_right herr hU.le,
    fun h52 => div_le_div_of_nonneg_right (herr52 h52) hU.le⟩

theorem signed_natAbs_mul (ka kb : Int) :
    (if (decide (ka < 0) != decide (kb < 0)) = true then (-1 : ℚ) else 1) *
      ((ka.natAbs : ℚ) * (kb.natAbs : ℚ)) = (ka : ℚ) * kb := by
  rw [Nat.cast_natAbs, Nat.cast_natAbs, Int.cast_abs, Int.cast_abs]
  rcases lt_or_le ka 0 with ha | ha <;> rcases lt_or_le kb 0 with hb | hb
  · have ha' : (ka : ℚ) < 0 := by exact_mod_cast ha
    have hb' : (kb : ℚ) < 0 := by exact_mod_cast hb
    simp [ha, hb, abs_of_neg ha', abs_of_neg hb']
  · have ha' : (ka : ℚ) < 0 := by exact_mod_cast ha
    have hb' : (0 : ℚ) ≤ kb := by exact_mod_cast hb
    simp [ha, not_lt.mpr hb, abs_of_neg ha', abs_of_nonneg hb']
  · have ha' : (0 : ℚ) ≤ ka := by exact_mod_cast ha
    have hb' : (kb : ℚ) < 0 := by exact_mod_cast hb
    simp [not_lt.mpr ha, hb, abs_of_nonneg ha', abs_of_neg hb']
  · have ha' : (0 : ℚ) ≤ ka := by exact_mod_cast ha
    have hb' : (0 : ℚ) ≤ kb := by exact_mod_cast hb
    simp [not_lt.mpr ha, not_lt.mpr hb, abs_of_nonneg ha', abs_of_nonneg hb']

theorem signed_natAbs (k : Int) :
    (if decide (k < 0) = true then (-1 : ℚ) else 1) * (k.natAbs : ℚ) = (k : ℚ) := by
  rw [Nat.cast_natAbs, Int.cast_abs]
  rcases lt_or_le k 0 with h | h
  · have h' : (k : ℚ) < 0 := by exact_mod_cast h
    simp [h, abs_of_neg h']
  · have h' : (0 : ℚ) ≤ k := by exact_mod_cast h
    simp [not_lt.mpr h, abs_of_nonneg h']

/-- Error of a rounded result: `t` is the rounding of `e`, the exact value of
`x` units `1 / U`, up to the relative error of 53 bits and the half unit `η` of
the subnormal range, `m` being the least normal magnitude. -/
theorem rounded_value_error (t e x U η m : ℚ) (hU : 0 < U) (hη : 1 / (2 * U) = η)
    (hm : 2 ^ 52 / U = m) (s : ℚ) (hx : x = |e| * U) (hs : s * x / U = e)
    (h : |t - s * x / U| ≤ (x / 2 ^ 53 + 1 / 2) / U)
    (h52 : (2 : ℚ) ^ 52 ≤ x → |t - s * x / U| ≤ x / 2 ^ 53 / U) :
    |t - e| ≤ |e| / 2 ^ 53 + η ∧ (m ≤ |e| → |t - e| ≤ |e| / 2 ^ 53) := by
  subst hη hm
  rw [hs] at h h52
  have e1 : (x / 2 ^ 53 + 1 / 2) / U = |e| / 2 ^ 53 + 1 / (2 * U) := by
    rw [hx]
    field_simp
    ring
  have e2 : x / 2 ^ 53 / U = |e| / 2 ^ 53 := by
    rw [hx]
    field_simp
    ring
  rw [e1] at h
  rw [e2] at h52
  refine ⟨h, fun hle => h52 ?_⟩
  rw [hx]
  rwa [div_le_iff₀ hU] at hle

theorem double_mul_fin (ka kb : Int) :
    Double.fin ka * Double.fin kb =
      Double.ofRatio (decide (ka < 0) != decide (kb < 0)) (ka.natAbs * kb.natAbs)
        (2 ^ 1074) := by
  show Double.mul (Double.fin ka) (Double.fin kb) = _
  simp only [Double.mul]

theorem double_add_fin (ka kb : Int) :
    Double.fin ka + Double.fin kb =
      Double.ofRatio (decide (ka + kb < 0)) (ka + kb).natAbs 1 := by
  show Double.add (Double.fin ka) (Double.fin kb) = _
  simp only [Double.add]

theorem double_div_fin (ka kb : Int) (hb : kb ≠ 0) :
    Double.fin ka / Double.fin kb =
      Double.ofRatio (decide (ka < 0) != decide (kb < 0)) (ka.natAbs * 2 ^ 1074) kb.natAbs := by
  show Double.div (Double.fin ka) (Double.fin kb) = _
  simp only [Double.div, hb, if_false]

set_option maxRecDepth 100000 in
/-- Rounding error of `a * b` for finite doubles whose exact product does not
overflow. -/
theorem double_mul_spec (a b : Double) (ha : a.IsFinite) (hb : b.IsFinite)
    (hx : |a.toRat * b.toRat| ≤ 2 ^ 1023) :
    (a * b).IsFinite ∧
    |(a * b).toRat - a.toRat * b.toRat| ≤ |a.toRat * b.toRat| / 2 ^ 53 + 1 / 2 ^ 1075 ∧
    ((1 : ℚ) / 2 ^ 1022 ≤ |a.toRat * b.toRat| →
      |(a * b).toRat - a.toRat * b.toRat| ≤ |a.toRat * b.toRat| / 2 ^ 53) := by
  cases a with
  | nan => exact absurd ha (by simp [Double.IsFinite])
  | inf s => exact absurd ha (by simp [Double.IsFinite])
  | fin ka =>
    cases b with
    | nan => exact absurd hb (by simp [Double.IsFinite])
    | inf s => exact absurd hb (by simp [Double.IsFinite])
    | fin kb =>
      have ha' : ka.natAbs < 2 ^ 2098 := ha
      have hb' : kb.natAbs < 2 ^ 2098 := hb
      have hU : (0 : ℚ) < 2 ^ 1074 := by positivity
      rw [double_mul_fin]
      have hprod : (Double.fin ka).toRat * (Double.fin kb).toRat =
          (ka : ℚ) * kb / 2 ^ 1074 / 2 ^ 1074 := by
        simp only [Double.toRat]
        field_simp
      rw [hprod] at hx ⊢
      have hq : ka.natAbs * kb.natAbs / 2 ^ 1074 < 2 ^ 4096 := by
        apply Nat.div_lt_of_lt_mul
        calc ka.natAbs * kb.natAbs < 2 ^ 2098 * 2 ^ 2098 := Nat.mul_lt_mul'' ha' hb'
          _ ≤ 2 ^ 1074 * 2 ^ 4096 := by norm_num
      have hsgn := signed_natAbs_mul ka kb
      generalize (decide (ka < 0) != decide (kb < 0)) = sgn at hsgn ⊢
      generalize hdU : (2 ^ 1074 : Nat) = d at hq ⊢
      have hdq : (d : ℚ) = 2 ^ 1074 := by
        rw [← hdU]
        push_cast
        rfl
      have hd : 0 < d := by
        rw [← hdU]
        positivity
      have hs : (if sgn = true then (-1 : ℚ) else 1) *
          (((ka.natAbs * kb.natAbs : Nat) : ℚ) / (d : ℚ)) / 2 ^ 1074 =
          (ka : ℚ) * kb / 2 ^ 1074 / 2 ^ 1074 := by
        rw [hdq, ← hsgn]
        push_cast
        ring
      have hn : ((ka.natAbs * kb.natAbs : Nat) : ℚ) / (d : ℚ) =
          |(ka : ℚ) * kb / 2 ^ 1074 / 2 ^ 1074| * 2 ^ 1074 := by
        rw [hdq]
        push_cast
        rw [Nat.cast_natAbs, Nat.cast_natAbs, Int.cast_abs, Int.cast_abs, abs_div, abs_div,
          abs_mul, abs_of_pos hU]
        field_simp
        ring
      have hx' : ((ka.natAbs * kb.natAbs : Nat) : ℚ) / (d : ℚ) ≤ 2 ^ 2097 := by
        rw [hn]
        calc |(ka : ℚ) * kb / 2 ^ 1074 / 2 ^ 1074| * 2 ^ 1074 ≤ 2 ^ 1023 * 2 ^ 1074 :=
              mul_le_mul_of_nonneg_right hx hU.le
          _ = 2 ^ 2097 := by norm_num
      obtain ⟨hfin, herr, herr52⟩ := ofRatio_spec sgn (ka.natAbs * kb.natAbs) d hd hq hx'
      have h75 : (1 : ℚ) / (2 * 2 ^ 1074) = 1 / 2 ^ 1075 := by norm_num
      have h22 : (2 : ℚ) ^ 52 / 2 ^ 1074 = 1 / 2 ^ 1022 := by norm_num
      have hres := rounded_value_error
        (Double.ofRatio sgn (ka.natAbs * kb.natAbs) d).toRat
        ((ka : ℚ) * kb / 2 ^ 1074 / 2 ^ 1074)
        (((ka.natAbs * kb.natAbs : Nat) : ℚ) / (d : ℚ)) (2 ^ 1074)
        (1 / 2 ^ 1075) (1 / 2 ^ 1022) hU h75 h22 _ hn hs herr herr52
      exact ⟨hfin, hres.1, hres.2⟩

set_option maxRecDepth 100000 in
/-- Rounding error of `a + b` for finite doubles whose exact sum does not
overflow. -/
theorem double_add_spec (a b : Double) (ha : a.IsFinite) (hb : b.IsFinite)
    (hx : |a.toRat + b.toRat| ≤ 2 ^ 1023) :
    (a + b).IsFinite ∧
    |(a + b).toRat - (a.toRat + b.toRat)| ≤ |a.toRat + b.toRat| / 2 ^ 53 + 1 / 2 ^ 1075 ∧
    ((1 : ℚ) / 2 ^ 1022 ≤ |a.toRat + b.toRat| →
      |(a + b).toRat - (a.toRat + b.toRat)| ≤ |a.toRat + b.toRat| / 2 ^ 53) := by
  cases a with
  | nan => exact absurd ha (by simp [Double.IsFinite])
  | inf s => exact absurd ha (by simp [Double.IsFinite])
  | fin ka =>
    cases b with
    | nan => exact absurd hb (by simp [Double.IsFinite])
    | inf s => exact absurd hb (by simp [Double.IsFinite])
    | fin kb =>
      have ha' : ka.natAbs < 2 ^ 2098 := ha
      have hb' : kb.natAbs < 2 ^ 2098 := hb
      have hU : (0 : ℚ) < 2 ^ 1074 := by positivity
      rw [double_add_fin]
      have hsum : (Double.fin ka).toRat + (Double.fin kb).toRat =
          ((ka + kb : Int) : ℚ) / 2 ^ 1074 := by
        simp only [Double.toRat]
        push_cast
        field_simp
      rw [hsum] at hx ⊢
      have hq : (ka + kb).natAbs / 1 < 2 ^ 4096 := by
        rw [Nat.div_one]
        calc (ka + kb).natAbs ≤ ka.natAbs + kb.natAbs := Int.natAbs_add_le ka kb
          _ < 2 ^ 2098 + 2 ^ 2098 := Nat.add_lt_add ha' hb'
          _ ≤ 2 ^ 4096 := by norm_num
      have hsgn := signed_natAbs (ka + kb)
      generalize decide (ka + kb < 0) = sgn at hsgn ⊢
      have hs : (if sgn = true then (-1 : ℚ) else 1) *
          ((((ka + kb).natAbs : Nat) : ℚ) / ((1 : Nat) : ℚ)) / 2 ^ 1074 =
          ((ka + kb : Int) : ℚ) / 2 ^ 1074 := by
        rw [← hsgn]
        push_cast
        ring
      have hn : (((ka + kb).natAbs : Nat) : ℚ) / ((1 : Nat) : ℚ) =
          |((ka + kb : Int) : ℚ) / 2 ^ 1074| * 2 ^ 1074 := by
        rw [Nat.cast_natAbs, Int.cast_abs, abs_div, abs_of_pos hU]
        field_simp
      have hx' : (((ka + kb).natAbs : Nat) : ℚ) / ((1 : Nat) : ℚ) ≤ 2 ^ 2097 := by
        rw [hn]
        calc |((ka + kb : Int) : ℚ) / 2 ^ 1074| * 2 ^ 1074 ≤ 2 ^ 1023 * 2 ^ 1074 :=
              mul_le_mul_of_nonneg_right hx hU.le
          _ = 2 ^ 2097 := by norm_num
      obtain ⟨hfin, herr, herr52⟩ := ofRatio_spec sgn (ka + kb).natAbs 1 (by norm_num) hq hx'
      have h75 : (1 : ℚ) / (2 * 2 ^ 1074) = 1 / 2 ^ 1075 := by norm_num
      have h22 : (2 : ℚ) ^ 52 / 2 ^ 1074 = 1 / 2 ^ 1022 := by norm_num
      have hres := rounded_value_error
        (Double.ofRatio sgn (ka + kb).natAbs 1).toRat
        (((ka + kb : Int) : ℚ) / 2 ^ 1074)
        ((((ka + kb).natAbs : Nat) : ℚ) / ((1 : Nat) : ℚ)) (2 ^ 1074)
        (1 / 2 ^ 1075) (1 / 2 ^ 1022) hU h75 h22 _ hn hs herr herr52
      exact ⟨hfin, hres.1, hres.2⟩

theorem signed_natAbs_div (ka kb : Int) (hb : kb ≠ 0) :
    (if (decide (ka < 0) != decide (kb < 0)) = true then (-1 : ℚ) else 1) *
      ((ka.natAbs : ℚ) / (kb.natAbs : ℚ)) = (ka : ℚ) / kb := by
  have h := signed_natAbs_mul ka kb
  have hb' : (kb : ℚ) ≠ 0 := by exact_mod_cast hb
  have hbn : (kb.natAbs : ℚ) ≠ 0 := by
    rw [Nat.cast_natAbs, Int.cast_abs]
    exact abs_ne_zero.mpr hb'
  have hsq : (kb.natAbs : ℚ) * (kb.natAbs : ℚ) = (kb : ℚ) * kb := by
    rw [Nat.cast_natAbs, Int.cast_abs, abs_mul_abs_self]
  generalize (if (decide (ka < 0) != decide (kb < 0)) = true then (-1 : ℚ) else 1) = s at h ⊢
  have h1 : s * ((ka.natAbs : ℚ) / (kb.natAbs : ℚ)) =
      s * ((ka.natAbs : ℚ) * (kb.natAbs : ℚ)) / ((kb.natAbs : ℚ) * (kb.natAbs : ℚ)) := by
    field_simp
    ring
  rw [h1, h, hsq, mul_div_mul_right _ _ hb']

set_option maxRecDepth 100000 in
/-- Rounding error of `a / b` for finite doubles, `b` not zero, whose exact
quotient does not overflow. -/
theorem double_div_spec (a b : Double) (ha : a.IsFinite) (hb : b.IsFinite)
    (hb0 : b.toRat ≠ 0) (hx : |a.toRat / b.toRat| ≤ 2 ^ 1023) :
    (a / b).IsFinite ∧
    |(a / b).toRat - a.toRat / b.toRat| ≤ |a.toRat / b.toRat| / 2 ^ 53 + 1 / 2 ^ 1075 ∧
    ((1 : ℚ) / 2 ^ 1022 ≤ |a.toRat / b.toRat| →
      |(a / b).toRat - a.toRat / b.toRat| ≤ |a.toRat / b.toRat| / 2 ^ 53) := by
  cases a with
  | nan => exact absurd ha (by simp [Double.IsFinite])
  | inf s => exact absurd ha (by simp [Double.IsFinite])
  | fin ka =>
    cases b with
    | nan => exact absurd hb (by simp [Double.IsFinite])
    | inf s => exact absurd hb (by simp [Double.IsFinite])
    | fin kb =>
      have ha' : ka.natAbs < 2 ^ 2098 := ha
      have hU : (0 : ℚ) < 2 ^ 1074 := by positivity
      have hkb : kb ≠ 0 := by
        intro h
        apply hb0
        rw [h]
        simp only [Double.toRat]
        simp
      have hkbq : (kb : ℚ) ≠ 0 := by exact_mod_cast hkb
      have hkbn : (kb.natAbs : ℚ) ≠ 0 := by
        rw [Nat.cast_natAbs, Int.cast_abs]
        exact abs_ne_zero.mpr hkbq
      rw [double_div_fin ka kb hkb]
      have hquot : (Double.fin ka).toRat / (Double.fin kb).toRat = (ka : ℚ) / kb := by
        simp only [Double.toRat]
        field_simp
      rw [hquot] at hx ⊢
      have hd : 0 < kb.natAbs := Int.natAbs_pos.mpr hkb
      have hq : ka.natAbs * 2 ^ 1074 / kb.natAbs < 2 ^ 4096 := by
        apply lt_of_le_of_lt (Nat.div_le_self _ _)
        calc ka.natAbs * 2 ^ 1074 < 2 ^ 2098 * 2 ^ 1074 :=
              Nat.mul_lt_mul_of_pos_right ha' (by positivity)
          _ ≤ 2 ^ 4096 := by norm_num
      have hsgn := signed_natAbs_div ka kb hkb
      generalize (decide (ka < 0) != decide (kb < 0)) = sgn at hsgn ⊢
      generalize hdU : (2 ^ 1074 : Nat) = d at hq ⊢
      have hdq : (d : ℚ) = 2 ^ 1074 := by
        rw [← hdU]
        push_cast
        rfl
      have hcast : ((ka.natAbs * d : Nat) : ℚ) = (ka.natAbs : ℚ) * (d : ℚ) := by
        push_cast
        rfl
      have hs : (if sgn = true then (-1 : ℚ) else 1) *
          (((ka.natAbs * d : Nat) : ℚ) / (kb.natAbs : ℚ)) / 2 ^ 1074 = (ka : ℚ) / kb := by
        rw [hcast, hdq, ← hsgn]
        generalize (if sgn = true then (-1 : ℚ) else 1) = σ
        field_simp
        ring
      have hn : ((ka.natAbs * d : Nat) : ℚ) / (kb.natAbs : ℚ) =
          |(ka : ℚ) / kb| * 2 ^ 1074 := by
        rw [hcast, hdq, abs_div, Nat.cast_natAbs, Nat.cast_natAbs, Int.cast_abs, Int.cast_abs]
        field_simp
      have hx' : ((ka.natAbs * d : Nat) : ℚ) / (kb.natAbs : ℚ) ≤ 2 ^ 2097 := by
        rw [hn]
        calc |(ka : ℚ) / kb| * 2 ^ 1074 ≤ 2 ^ 1023 * 2 ^ 1074 :=
              mul_le_mul_of_nonneg_right hx hU.le
          _ = 2 ^ 2097 := by norm_num
      obtain ⟨hfin, herr, herr52⟩ := ofRatio_spec sgn (ka.natAbs * d) kb.natAbs hd hq hx'
      have h75 : (1 : ℚ) / (2 * 2 ^ 1074) = 1 / 2 ^ 1075 := by norm_num
      have h22 : (2 : ℚ) ^ 52 / 2 ^ 1074 = 1 / 2 ^ 1022 := by norm_num
      have hres := rounded_value_error
        (Double.ofRatio sgn (ka.natAbs * d) kb.natAbs).toRat
        ((ka : ℚ) / kb)
        (((ka.natAbs * d : Nat) : ℚ) / (kb.natAbs : ℚ)) (2 ^ 1074)
        (1 / 2 ^ 1075) (1 / 2 ^ 1022) hU h75 h22 _ hn hs herr herr52
      exact ⟨hfin, hres.1, hres.2⟩

/-! ## Height and pitch of the helix in doubles -/

/-- Two relative errors in a row compose; an absolute error `η` of the second
step is carried along. -/
theorem rel_error_compose (a b c ε1 ε2 η : ℚ) (hε1 : 0 ≤ ε1)
    (hab : |a - b| ≤ |b| * ε1 + η) (hbc : |b - c| ≤ |c| * ε2) :
    |a - c| ≤ |c| * (ε1 + ε2 + ε1 * ε2) + η := by
  have hb : |b| ≤ |c| + |c| * ε2 := by
    calc |b| = |(b - c) + c| := by ring_nf
      _ ≤ |b - c| + |c| := abs_add _ _
      _ ≤ |c| * ε2 + |c| := by linarith
      _ = |c| + |c| * ε2 := by ring
  have h1 : |a - c| ≤ |a - b| + |b - c| := abs_sub_le a b c
  have h2 : |b| * ε1 ≤ (|c| + |c| * ε2) * ε1 := mul_le_mul_of_nonneg_right hb hε1
  linarith

/-- Error of `fl(fl(S / D) * T)` against `S * T / 6.28` when `D` is the double
`6.28`. -/
theorem height_error_bound (S T Dq q z η : ℚ) (hDpos : 0 < Dq)
    (hD : |157 / 25 / Dq - 1| ≤ 1 / 2 ^ 54)
    (hq : |q - S / Dq| ≤ |S / Dq| / 2 ^ 53)
    (hz : |z - q * T| ≤ |q * T| / 2 ^ 53 + η) :
    |z - S * T / (157 / 25)| ≤ |S * T / (157 / 25)| / 2 ^ 51 + η := by
  have h10 : |S / Dq * T - S * T / (157 / 25)| ≤ |S * T / (157 / 25)| * (1 / 2 ^ 54) := by
    have : S / Dq * T - S * T / (157 / 25) = S * T / (157 / 25) * (157 / 25 / Dq - 1) := by
      field_simp
      ring
    rw [this, abs_mul]
    exact mul_le_mul_of_nonneg_left hD (abs_nonneg _)
  have h21 : |q * T - S / Dq * T| ≤ |S / Dq * T| * (1 / 2 ^ 53) + 0 := by
    have : q * T - S / Dq * T = (q - S / Dq) * T := by ring
    rw [this, abs_mul, abs_mul, add_zero]
    calc |q - S / Dq| * |T| ≤ |S / Dq| / 2 ^ 53 * |T| :=
          mul_le_mul_of_nonneg_right hq (abs_nonneg _)
      _ = |S / Dq| * |T| * (1 / 2 ^ 53) := by ring
  have h20 := rel_error_compose _ _ _ _ _ _ (by positivity) h21 h10
  rw [add_zero] at h20
  have hz' : |z - q * T| ≤ |q * T| * (1 / 2 ^ 53) + η := by
    rw [mul_one_div]
    exact hz
  have h30 := rel_error_compose _ _ _ _ _ _ (by positivity) hz' h20
  have hE := abs_nonneg (S * T / (157 / 25))
  generalize |S * T / (157 / 25)| = E at h30 hE ⊢
  have hbound : (1 : ℚ) / 2 ^ 53 + (1 / 2 ^ 53 + 1 / 2 ^ 54 + 1 / 2 ^ 53 * (1 / 2 ^ 54)) +
      1 / 2 ^ 53 * (1 / 2 ^ 53 + 1 / 2 ^ 54 + 1 / 2 ^ 53 * (1 / 2 ^ 54)) ≤ 1 / 2 ^ 51 := by
    norm_num
  have := mul_le_mul_of_nonneg_left hbound hE
  rw [mul_one_div] at this
  linarith

theorem abs_toRat_lt (a : Double) (ha : a.IsFinite) : |a.toRat| < 2 ^ 1024 := by
  cases a with
  | nan => exact absurd ha (by simp [Double.IsFinite])
  | inf s => exact absurd ha (by simp [Double.IsFinite])
  | fin k =>
    have hk : k.natAbs < 2 ^ 2098 := ha
    have hU : (0 : ℚ) < 2 ^ 1074 := by positivity
    have hq : ((k.natAbs : Nat) : ℚ) < 2 ^ 2098 := by exact_mod_cast hk
    rw [Nat.cast_natAbs, Int.cast_abs] at hq
    simp only [Double.toRat]
    rw [abs_div, abs_of_pos hU, div_lt_iff₀ hU]
    calc |(k : ℚ)| < 2 ^ 2098 := hq
      _ = 2 ^ 1024 * 2 ^ 1074 := by norm_num

/-- The double `2 * PI` of the helix methods is the double `6.28`, which is
`7070651414971679 / 2 ^ 50`. -/
theorem double_two_PI :
    (2 : Double) * PI = Double.fin (7070651414971679 * 2 ^ 1024) ∧
    (6.28 : Double) = Double.fin (7070651414971679 * 2 ^ 1024) := by
  decide!

theorem double_two_PI_value :
    (Double.fin (7070651414971679 * 2 ^ 1024)).IsFinite ∧
    (Double.fin (7070651414971679 * 2 ^ 1024)).toRat = 7070651414971679 / 2 ^ 50 := by
  refine ⟨?_, ?_⟩
  · show Int.natAbs _ < _
    decide!
  · simp only [Double.toRat]
    norm_num

theorem double_helix_new (r step : Double) (hr : 0 < r) (hs : 0 < step) :
    Helix.new r step = .ok { radius := r, step := step } := by
  have h1 : ¬ (r ≤ 0) := fun h => double_not_lt_of_le h hr
  have h2 : ¬ (step ≤ 0) := fun h => double_not_lt_of_le h hs
  simp [Helix.new, Curve.init, h1, h2]

set_option maxRecDepth 100000 in
/-- C6 (as amended): for `r > 0`, a finite `step > 0` and a finite `t`, the
height of `Helix(r, step).findPoint(t)` is the double expression
`step / (2 * PI) * t`, in which `2 * PI` is the double `6.28`: the quotient
`step / 6.28` rounded to a double, times `t`, rounded to a double.  When the
quotient does not underflow and the product does not overflow, the height is
finite and differs from the real number `step * t / 6.28` by at most
`2 ^ -51` of it, up to half the least positive double. -/
theorem helix_height (cos sin : Double → Double) (r step t : Double)
    (hr : 0 < r) (hs : 0 < step) (hstep : step.IsFinite) (ht : t.IsFinite)
    (hlow : (1 : ℚ) / 2 ^ 1019 ≤ step.toRat)
    (hhigh : |step.toRat * t.toRat| ≤ 2 ^ 1025) :
    ∃ h, Helix.new r step = .ok h ∧
      (h.findPoint cos sin t).z = step / 6.28 * t ∧
      ((h.findPoint cos sin t).z).IsFinite ∧
      |((h.findPoint cos sin t).z).toRat - step.toRat * t.toRat / (157 / 25)| ≤
        |step.toRat * t.toRat / (157 / 25)| / 2 ^ 51 + 1 / 2 ^ 1075 := by
  refine ⟨_, double_helix_new r step hr hs, ?_, ?_⟩
  · show step / (2 * PI) * t = step / 6.28 * t
    rw [double_two_PI.1, double_two_PI.2]
  show (step / (2 * PI) * t).IsFinite ∧
    |(step / (2 * PI) * t).toRat - step.toRat * t.toRat / (157 / 25)| ≤
      |step.toRat * t.toRat / (157 / 25)| / 2 ^ 51 + 1 / 2 ^ 1075
  rw [double_two_PI.1]
  obtain ⟨hDfin, hDq⟩ := double_two_PI_value
  generalize Double.fin (7070651414971679 * 2 ^ 1024) = D at hDfin hDq ⊢
  have hSlt := abs_toRat_lt step hstep
  have hDpos : (0 : ℚ) < D.toRat := by rw [hDq]; norm_num
  have hD6 : (6 : ℚ) ≤ D.toRat := by rw [hDq]; norm_num
  have hD8 : D.toRat ≤ 8 := by rw [hDq]; norm_num
  have hDc : |157 / 25 / D.toRat - 1| ≤ 1 / 2 ^ 54 := by
    rw [hDq, abs_le]
    constructor <;> norm_num
  have hSpos : (0 : ℚ) < step.toRat := lt_of_lt_of_le (by positivity) hlow
  have hSD : |step.toRat / D.toRat| = step.toRat / D.toRat :=
    abs_of_pos (div_pos hSpos hDpos)
  have hSabs : |step.toRat| = step.toRat := abs_of_pos hSpos
  have hx1 : |step.toRat / D.toRat| ≤ 2 ^ 1023 := by
    rw [hSD, div_le_iff₀ hDpos]
    rw [hSabs] at hSlt
    calc step.toRat ≤ 2 ^ 1024 := hSlt.le
      _ = 2 ^ 1023 * 2 := by norm_num
      _ ≤ 2 ^ 1023 * D.toRat := by
          apply mul_le_mul_of_nonneg_left _ (by positivity)
          linarith
  have hn1 : (1 : ℚ) / 2 ^ 1022 ≤ |step.toRat / D.toRat| := by
    rw [hSD, le_div_iff₀ hDpos]
    calc (1 : ℚ) / 2 ^ 1022 * D.toRat ≤ 1 / 2 ^ 1022 * 8 :=
          mul_le_mul_of_nonneg_left hD8 (by positivity)
      _ = 1 / 2 ^ 1019 := by norm_num
      _ ≤ step.toRat := hlow
  obtain ⟨hqfin, -, hq⟩ := double_div_spec step D hstep hDfin hDpos.ne' hx1
  have hq := hq hn1
  generalize step / D = q at hqfin hq ⊢
  have hqabs : |q.toRat| ≤ step.toRat / D.toRat * (1 + 1 / 2 ^ 53) := by
    have h1 : |q.toRat| ≤ |q.toRat - step.toRat / D.toRat| + |step.toRat / D.toRat| := by
      have := abs_add (q.toRat - step.toRat / D.toRat) (step.toRat / D.toRat)
      rwa [sub_add_cancel] at this
    rw [hSD] at hq h1
    linarith
  have hx2 : |q.toRat * t.toRat| ≤ 2 ^ 1023 := by
    rw [abs_mul]
    have hT := abs_nonneg t.toRat
    rw [abs_mul, hSabs] at hhigh
    have h1 : |q.toRat| * |t.toRat| ≤
        step.toRat / D.toRat * (1 + 1 / 2 ^ 53) * |t.toRat| :=
      mul_le_mul_of_nonneg_right hqabs hT
    have h2 : step.toRat / D.toRat * (1 + 1 / 2 ^ 53) * |t.toRat| =
        step.toRat * |t.toRat| * ((1 + 1 / 2 ^ 53) / D.toRat) := by
      field_simp
      ring
    have h3 : (1 + 1 / 2 ^ 53) / D.toRat ≤ (1 : ℚ) / 4 := by
      rw [div_le_iff₀ hDpos]
      have : (1 : ℚ) + 1 / 2 ^ 53 ≤ 1 / 4 * 6 := by norm_num
      linarith
    have h4 : step.toRat * |t.toRat| * ((1 + 1 / 2 ^ 53) / D.toRat) ≤
        2 ^ 1025 * (1 / 4) :=
      mul_le_mul hhigh h3 (div_nonneg (by positivity) hDpos.le) (by positivity)
    have h5 : (2 : ℚ) ^ 1025 * (1 / 4) = 2 ^ 1023 := by norm_num
    linarith
  obtain ⟨hzfin, hz, -⟩ := double_mul_spec q t hqfin ht hx2
  exact ⟨hzfin, height_error_bound _ _ _ _ _ _ hDpos hDc hq hz⟩

theorem toRat_three_five : (3 : Double).toRat = 3 ∧ (5 : Double).toRat = 5 := by
  have h3 : (3 : Double) = Double.fin (3 * 2 ^ 1074) := by decide!
  have h5 : (5 : Double) = Double.fin (5 * 2 ^ 1074) := by decide!
  rw [h3, h5]
  simp only [Double.toRat]
  constructor <;> norm_num

/-- C6, witness: `Helix(1, 3)` at `t = 5`, with the values of `cos(5)` and
`sin(5)`. -/
theorem helix_height_witness :
    (0 : Double) < 1 ∧ (0 : Double) < 3 ∧ (3 : Double).IsFinite ∧ (5 : Double).IsFinite ∧
    (1 : ℚ) / 2 ^ 1019 ≤ (3 : Double).toRat ∧
    |(3 : Double).toRat * (5 : Double).toRat| ≤ 2 ^ 1025 ∧
    ∃ h, Helix.new (1 : Double) 3 = .ok h ∧
      (h.findPoint cosAtFive sinAtFive 5).z =
        3 / 6.28 * 5 ∧
      ((h.findPoint cosAtFive sinAtFive 5).z).IsFinite ∧
      |((h.findPoint cosAtFive sinAtFive 5).z).toRat -
          (3 : Double).toRat * (5 : Double).toRat / (157 / 25)| ≤
        |(3 : Double).toRat * (5 : Double).toRat / (157 / 25)| / 2 ^ 51 + 1 / 2 ^ 1075 :=
  have hlow : (1 : ℚ) / 2 ^ 1019 ≤ (3 : Double).toRat := by
    rw [toRat_three_five.1]
    norm_num
  have hhigh : |(3 : Double).toRat * (5 : Double).toRat| ≤ 2 ^ 1025 := by
    rw [toRat_three_five.1, toRat_three_five.2]
    norm_num
  ⟨by decide!, by decide!, by decide!, by decide!, hlow, hhigh,
    helix_height cosAtFive sinAtFive 1 3 5 (by decide!) (by decide!) (by decide!) (by decide!) hlow hhigh⟩

/-- C6, counterexample: `Helix(1, 3)` is constructed, and at `t = 5` (with the
values of `cos(5)` and `sin(5)`) the height computed by `findPoint` is the
double 2.388535031847134, while `step * t / 6.28` is the double
2.3885350318471334; the computed height is not the real number
`3 * 5 / 6.28` either. -/
theorem helix_height_rounded :
    Helix.new (1 : Double) 3 = .ok { radius := 1, step := 3 } ∧
    (Helix.findPoint cosAtFive sinAtFive
      { radius := 1, step := 3 } 5).z = 2.388535031847134 ∧
    (3 : Double) * 5 / 6.28 = 2.3885350318471334 ∧
    (2.388535031847134 : Double) ≠ 2.3885350318471334 ∧
    (2.388535031847134 : Double).toRat ≠ 3 * 5 / (157 / 25) := by
  refine ⟨double_helix_new 1 3 (by decide!) (by decide!), by decide!, by decide!, by decide!, ?_⟩
  have h : (2.388535031847134 : Double) = Double.fin (336156421230879 * 2 ^ 1027) := by
    decide!
  rw [h]
  simp only [Double.toRat]
  norm_num

/-- Magnitude of the rounded quotient `q` of `S / D` and of the rounded sum
`t1` of `T + D`, `D` the double `6.28`. -/
theorem pitch_operand_bounds (S T Dq q t1 η : ℚ) (hS : 0 < S) (hD6 : 6 ≤ Dq)
    (hD8 : Dq ≤ 8)
    (hq : |q - S / Dq| ≤ S / Dq / 2 ^ 53)
    (ht1 : |t1 - (T + Dq)| ≤ |T + Dq| / 2 ^ 53 + η) :
    |q| ≤ S / 5 ∧ |t1 - (T + Dq)| ≤ (|T| + 8) / 2 ^ 53 + η ∧
    |t1| ≤ 2 * (|T| + 8) + η := by
  have hDpos : 0 < Dq := by linarith
  have hA := abs_nonneg T
  have hSD : S / Dq ≤ S / 6 := div_le_div_of_nonneg_left hS.le (by norm_num) hD6
  have hSD0 : 0 ≤ S / Dq := (div_pos hS hDpos).le
  have hqabs : |q| ≤ S / 5 := by
    have h1 : |q| ≤ |q - S / Dq| + |S / Dq| := by
      have := abs_add (q - S / Dq) (S / Dq)
      rwa [sub_add_cancel] at this
    rw [abs_of_nonneg hSD0] at h1
    have h2 : S / Dq / 2 ^ 53 ≤ S / Dq / 10 :=
      div_le_div_of_nonneg_left hSD0 (by norm_num) (by norm_num)
    linarith
  have hTD : |T + Dq| ≤ |T| + 8 := by
    have := abs_add T Dq
    rw [abs_of_pos hDpos] at this
    linarith
  have hb : |t1 - (T + Dq)| ≤ (|T| + 8) / 2 ^ 53 + η := by
    have : |T + Dq| / 2 ^ 53 ≤ (|T| + 8) / 2 ^ 53 :=
      div_le_div_of_nonneg_right hTD (by positivity)
    linarith
  have ht1abs : |t1| ≤ 2 * (|T| + 8) + η := by
    have h1 : |t1| ≤ |t1 - (T + Dq)| + |T + Dq| := by
      have := abs_add (t1 - (T + Dq)) (T + Dq)
      rwa [sub_add_cancel] at this
    have h2 : (|T| + 8) / 2 ^ 53 ≤ |T| + 8 := div_le_self (by linarith) (by norm_num)
    linarith
  exact ⟨hqabs, hb, ht1abs⟩

/-- Error of `fl(q * t1) - fl(q * T)` against `S` when `q` is the rounded
`S / D`, `t1` the rounded `T + D` and `D` the double `6.28`. -/
theorem pitch_error_bound (S T Dq q t1 z1 z2 η : ℚ) (hS : 0 < S) (hD6 : 6 ≤ Dq)
    (hD8 : Dq ≤ 8) (hη0 : 0 ≤ η) (hη : η ≤ 1 / 2 ^ 53)
    (hq : |q - S / Dq| ≤ S / Dq / 2 ^ 53)
    (ht1 : |t1 - (T + Dq)| ≤ |T + Dq| / 2 ^ 53 + η)
    (hz1 : |z1 - q * T| ≤ |q * T| / 2 ^ 53 + η)
    (hz2 : |z2 - q * t1| ≤ |q * t1| / 2 ^ 53 + η) :
    |z2 - z1 - S| ≤ S * (|T| + 2) / 2 ^ 50 + 2 * η := by
  have hDpos : 0 < Dq := by linarith
  have hA := abs_nonneg T
  obtain ⟨hqabs, hb, ht1abs⟩ := pitch_operand_bounds S T Dq q t1 η hS hD6 hD8 hq ht1
  have hqb : |q * (t1 - (T + Dq))| ≤ S / 5 * ((|T| + 8) / 2 ^ 53 + η) := by
    rw [abs_mul]
    exact mul_le_mul hqabs hb (abs_nonneg _) (by linarith)
  have hc : |z1 - q * T| ≤ S / 5 * |T| / 2 ^ 53 + η := by
    have h1 : |q * T| ≤ S / 5 * |T| := by
      rw [abs_mul]
      exact mul_le_mul_of_nonneg_right hqabs hA
    have h2 : |q * T| / 2 ^ 53 ≤ S / 5 * |T| / 2 ^ 53 :=
      div_le_div_of_nonneg_right h1 (by positivity)
    linarith
  have hd : |z2 - q * t1| ≤ S / 5 * (2 * (|T| + 8) + η) / 2 ^ 53 + η := by
    have h1 : |q * t1| ≤ S / 5 * (2 * (|T| + 8) + η) := by
      rw [abs_mul]
      exact mul_le_mul hqabs ht1abs (abs_nonneg _) (by linarith)
    have h2 : |q * t1| / 2 ^ 53 ≤ S / 5 * (2 * (|T| + 8) + η) / 2 ^ 53 :=
      div_le_div_of_nonneg_right h1 (by positivity)
    linarith
  have ha : |(q - S / Dq) * Dq| ≤ S / 2 ^ 53 := by
    rw [abs_mul, abs_of_pos hDpos]
    calc |q - S / Dq| * Dq ≤ S / Dq / 2 ^ 53 * Dq := mul_le_mul_of_nonneg_right hq hDpos.le
      _ = S / 2 ^ 53 := by
          field_simp
          ring
  have hdecomp : z2 - z1 - S =
      (z2 - q * t1) - (z1 - q * T) + q * (t1 - (T + Dq)) + (q - S / Dq) * Dq := by
    field_simp
    ring
  have htri : |z2 - z1 - S| ≤ |z2 - q * t1| + |z1 - q * T| + |q * (t1 - (T + Dq))| +
      |(q - S / Dq) * Dq| := by
    rw [hdecomp]
    refine (abs_add _ _).trans ?_
    refine add_le_add_right ((abs_add _ _).trans ?_) _
    exact add_le_add_right (abs_sub _ _) _
  have hSη : S * η ≤ S * (1 / 2 ^ 53) := mul_le_mul_of_nonneg_left hη hS.le
  have hSA : 0 ≤ S * |T| := mul_nonneg hS.le hA
  have hSη0 : 0 ≤ S * η := mul_nonneg hS.le hη0
  have hfinal : S / 5 * (2 * (|T| + 8) + η) / 2 ^ 53 + η + (S / 5 * |T| / 2 ^ 53 + η) +
      S / 5 * ((|T| + 8) / 2 ^ 53 + η) + S / 2 ^ 53 ≤ S * (|T| + 2) / 2 ^ 50 + 2 * η := by
    have e1 : S / 5 * (2 * (|T| + 8) + η) / 2 ^ 53 + η + (S / 5 * |T| / 2 ^ 53 + η) +
        S / 5 * ((|T| + 8) / 2 ^ 53 + η) + S / 2 ^ 53 =
        (S * |T|) * (4 / 5 / 2 ^ 53) + S * (29 / 5 / 2 ^ 53) +
          (S * η) * (1 / 5 / 2 ^ 53 + 1 / 5) + 2 * η := by ring
    have e2 : S * (|T| + 2) / 2 ^ 50 + 2 * η =
        (S * |T|) * (8 / 2 ^ 53) + S * (16 / 2 ^ 53) + 2 * η := by ring
    rw [e1, e2]
    have h1 : (S * |T|) * (4 / 5 / 2 ^ 53) ≤ (S * |T|) * (8 / 2 ^ 53) :=
      mul_le_mul_of_nonneg_left (by norm_num) hSA
    have h2 : (S * η) * (1 / 5 / 2 ^ 53 + 1 / 5) ≤ S * (1 / 2 ^ 53) * (1 / 5 / 2 ^ 53 + 1 / 5) :=
      mul_le_mul_of_nonneg_right hSη (by norm_num)
    have h3 : S * (29 / 5 / 2 ^ 53) + S * (1 / 2 ^ 53) * (1 / 5 / 2 ^ 53 + 1 / 5) ≤
        S * (16 / 2 ^ 53) := by
      have : (29 : ℚ) / 5 / 2 ^ 53 + (1 / 2 ^ 53) * (1 / 5 / 2 ^ 53 + 1 / 5) ≤ 16 / 2 ^ 53 := by
        norm_num
      have := mul_le_mul_of_nonneg_left this hS.le
      linarith
    linarith
  linarith


theorem ofRatio_zero (neg : Bool) (d : Nat) (hd : 0 < d) : Double.ofRatio neg 0 d = 0 := by
  have hr : Double.roundUnits 0 d = 0 := by
    unfold Double.roundUnits Double.halfEven
    have hb : 0 < d * 2 ^ Double.spacing 0 d := Nat.mul_pos hd (by positivity)
    simp [hb]
  unfold Double.ofRatio
  rw [hr]
  cases neg <;> simp <;> rfl

theorem double_mul_zero (a : Double) (ha : a.IsFinite) : a * 0 = 0 := by
  cases a with
  | nan => exact absurd ha (by simp [Double.IsFinite])
  | inf s => exact absurd ha (by simp [Double.IsFinite])
  | fin k =>
    show Double.fin k * Double.fin 0 = 0
    rw [double_mul_fin]
    simp only [Int.natAbs_zero, Nat.mul_zero]
    exact ofRatio_zero _ _ (by positivity)

set_option maxRecDepth 100000 in
/-- C19 (as amended): for `r > 0`, a finite step of at least `2 ^ -1019` and a
finite parameter `t` with `|t| ≤ 2 ^ 1022` and `step * (|t| + 8) ≤ 2 ^ 1024`
(nothing underflows in the quotient `step / 6.28` or overflows), the height of
the helix point at `t = 0` is exactly 0, and moving the parameter on by
`2 * PI` (the double `6.28`) raises the height by one step up to rounding: the
difference of the two computed heights is within
`step * (|t| + 2) * 2 ^ -50`, plus the least positive double, of `step`. -/
theorem helix_pitch (cos sin : Double → Double) (r step t : Double)
    (hr : 0 < r) (hs : 0 < step) (hstep : step.IsFinite) (ht : t.IsFinite)
    (hlow : (1 : ℚ) / 2 ^ 1019 ≤ step.toRat) (htr : |t.toRat| ≤ 2 ^ 1022)
    (hhigh : step.toRat * (|t.toRat| + 8) ≤ 2 ^ 1024) :
    ∃ h, Helix.new r step = .ok h ∧
      (h.findPoint cos sin 0).z = 0 ∧
      |((h.findPoint cos sin (t + 2 * PI)).z).toRat - ((h.findPoint cos sin t).z).toRat -
          step.toRat| ≤ step.toRat * (|t.toRat| + 2) / 2 ^ 50 + 1 / 2 ^ 1074 := by
  refine ⟨_, double_helix_new r step hr hs, ?_⟩
  show step / (2 * PI) * 0 = 0 ∧
    |(step / (2 * PI) * (t + 2 * PI)).toRat - (step / (2 * PI) * t).toRat - step.toRat| ≤
      step.toRat * (|t.toRat| + 2) / 2 ^ 50 + 1 / 2 ^ 1074
  rw [double_two_PI.1]
  obtain ⟨hDfin, hDq⟩ := double_two_PI_value
  generalize Double.fin (7070651414971679 * 2 ^ 1024) = D at hDfin hDq ⊢
  have hSlt := abs_toRat_lt step hstep
  have hDpos : (0 : ℚ) < D.toRat := by rw [hDq]; norm_num
  have hD6 : (6 : ℚ) ≤ D.toRat := by rw [hDq]; norm_num
  have hD8 : D.toRat ≤ 8 := by rw [hDq]; norm_num
  have hSpos : (0 : ℚ) < step.toRat := lt_of_lt_of_le (by positivity) hlow
  have hSD : |step.toRat / D.toRat| = step.toRat / D.toRat :=
    abs_of_pos (div_pos hSpos hDpos)
  have hSabs : |step.toRat| = step.toRat := abs_of_pos hSpos
  have hx1 : |step.toRat / D.toRat| ≤ 2 ^ 1023 := by
    rw [hSD, div_le_iff₀ hDpos]
    rw [hSabs] at hSlt
    calc step.toRat ≤ 2 ^ 1024 := hSlt.le
      _ = 2 ^ 1023 * 2 := by norm_num
      _ ≤ 2 ^ 1023 * D.toRat := by
          apply mul_le_mul_of_nonneg_left _ (by positivity)
          linarith
  have hn1 : (1 : ℚ) / 2 ^ 1022 ≤ |step.toRat / D.toRat| := by
    rw [hSD, le_div_iff₀ hDpos]
    calc (1 : ℚ) / 2 ^ 1022 * D.toRat ≤ 1 / 2 ^ 1022 * 8 :=
          mul_le_mul_of_nonneg_left hD8 (by positivity)
      _ = 1 / 2 ^ 1019 := by norm_num
      _ ≤ step.toRat := hlow
  obtain ⟨hqfin, -, hq⟩ := double_div_spec step D hstep hDfin hDpos.ne' hx1
  have hq := hq hn1
  rw [hSD] at hq
  generalize step / D = q at hqfin hq ⊢
  refine ⟨double_mul_zero q hqfin, ?_⟩
  have hA := abs_nonneg t.toRat
  have hxt : |t.toRat + D.toRat| ≤ 2 ^ 1023 := by
    have h1 := abs_add t.toRat D.toRat
    rw [abs_of_pos hDpos] at h1
    have h2 : (2 : ℚ) ^ 1022 + 8 ≤ 2 ^ 1023 := by norm_num
    linarith
  obtain ⟨ht1fin, ht1, -⟩ := double_add_spec t D ht hDfin hxt
  generalize t + D = t1 at ht1fin ht1 ⊢
  have hη0 : (0 : ℚ) ≤ 1 / 2 ^ 1075 := by positivity
  have hη : (1 : ℚ) / 2 ^ 1075 ≤ 1 / 2 ^ 53 := by norm_num
  obtain ⟨hqabs, -, ht1abs⟩ := pitch_operand_bounds step.toRat t.toRat D.toRat q.toRat
    t1.toRat (1 / 2 ^ 1075) hSpos hD6 hD8 hq ht1
  have hST : step.toRat * |t.toRat| ≤ 2 ^ 1024 := by
    have : step.toRat * (|t.toRat| + 8) = step.toRat * |t.toRat| + step.toRat * 8 := by ring
    have h8 : 0 ≤ step.toRat * 8 := by positivity
    linarith
  have hx2 : |q.toRat * t.toRat| ≤ 2 ^ 1023 := by
    rw [abs_mul]
    calc |q.toRat| * |t.toRat| ≤ step.toRat / 5 * |t.toRat| :=
          mul_le_mul_of_nonneg_right hqabs hA
      _ = step.toRat * |t.toRat| / 5 := by ring
      _ ≤ 2 ^ 1024 / 5 := div_le_div_of_nonneg_right hST (by norm_num)
      _ ≤ 2 ^ 1023 := by norm_num
  obtain ⟨-, hz1, -⟩ := double_mul_spec q t hqfin ht hx2
  have hx3 : |q.toRat * t1.toRat| ≤ 2 ^ 1023 := by
    rw [abs_mul]
    have hS24 : step.toRat ≤ 2 ^ 1024 := by
      rw [hSabs] at hSlt
      exact hSlt.le
    have h1 : step.toRat * (1 / 2 ^ 1075) ≤ 2 ^ 1024 * (1 / 2 ^ 1075) :=
      mul_le_mul_of_nonneg_right hS24 hη0
    have h2 : (2 : ℚ) ^ 1024 * (1 / 2 ^ 1075) ≤ 1 := by norm_num
    calc |q.toRat| * |t1.toRat| ≤ step.toRat / 5 * (2 * (|t.toRat| + 8) + 1 / 2 ^ 1075) :=
          mul_le_mul hqabs ht1abs (abs_nonneg _) (by positivity)
      _ = 2 / 5 * (step.toRat * (|t.toRat| + 8)) + step.toRat * (1 / 2 ^ 1075) / 5 := by ring
      _ ≤ 2 / 5 * 2 ^ 1024 + 1 / 5 := by
          have := mul_le_mul_of_nonneg_left hhigh (by norm_num : (0 : ℚ) ≤ 2 / 5)
          linarith
      _ ≤ 2 ^ 1023 := by norm_num
  obtain ⟨-, hz2, -⟩ := double_mul_spec q t1 hqfin ht1fin hx3
  have hres := pitch_error_bound step.toRat t.toRat D.toRat q.toRat t1.toRat
    (q * t).toRat (q * t1).toRat (1 / 2 ^ 1075) hSpos hD6 hD8 hη0 hη hq ht1 hz1 hz2
  have e : (2 : ℚ) * (1 / 2 ^ 1075) = 1 / 2 ^ 1074 := by norm_num
  rw [e] at hres
  exact hres

theorem toRat_one_two : (1 : Double).toRat = 1 ∧ (2 : Double).toRat = 2 := by
  have h1 : (1 : Double) = Double.fin (1 * 2 ^ 1074) := by decide!
  have h2 : (2 : Double) = Double.fin (2 * 2 ^ 1074) := by decide!
  rw [h1, h2]
  simp only [Double.toRat]
  constructor <;> norm_num

/-- C19, witness: `Helix(1, 1)` at `t = 2`. -/
theorem helix_pitch_witness :
    (0 : Double) < 1 ∧ (1 : Double).IsFinite ∧ (2 : Double).IsFinite ∧
    (1 : ℚ) / 2 ^ 1019 ≤ (1 : Double).toRat ∧ |(2 : Double).toRat| ≤ 2 ^ 1022 ∧
    (1 : Double).toRat * (|(2 : Double).toRat| + 8) ≤ 2 ^ 1024 ∧
    ∃ h, Helix.new (1 : Double) 1 = .ok h ∧
      (h.findPoint cosAtTwo sinAtTwo 0).z = 0 ∧
      |((h.findPoint cosAtTwo sinAtTwo (2 + 2 * PI)).z).toRat -
          ((h.findPoint cosAtTwo sinAtTwo 2).z).toRat - (1 : Double).toRat| ≤
        (1 : Double).toRat * (|(2 : Double).toRat| + 2) / 2 ^ 50 + 1 / 2 ^ 1074 :=
  have hlow : (1 : ℚ) / 2 ^ 1019 ≤ (1 : Double).toRat := by
    rw [toRat_one_two.1]
    norm_num
  have htr : |(2 : Double).toRat| ≤ 2 ^ 1022 := by
    rw [toRat_one_two.2]
    norm_num
  have hhigh : (1 : Double).toRat * (|(2 : Double).toRat| + 8) ≤ 2 ^ 1024 := by
    rw [toRat_one_two.1, toRat_one_two.2]
    norm_num
  ⟨by decide!, by decide!, by decide!, hlow, htr, hhigh,
    helix_pitch cosAtTwo sinAtTwo 1 1 2 (by decide!) (by decide!) (by decide!) (by decide!)
      hlow htr hhigh⟩

/-- C19, counterexample: `Helix(1, 1)` is constructed; at `t = 2` the
parameter moved on by `2 * PI` is the double 8.280000000000001, the two heights
computed by `findPoint` are 0.3184713375796178 and 1.318471337579618, and
their difference is 1.0000000000000002 in doubles and is not 1 as a real
number either: the height does not rise by exactly one step. -/
theorem helix_pitch_rounded :
    Helix.new (1 : Double) 1 = .ok { radius := 1, step := 1 } ∧
    (2 : Double) + 2 * PI = 8.280000000000001 ∧
    (Helix.findPoint cosAtTwo sinAtTwo { radius := 1, step := 1 } 2).z =
      0.3184713375796178 ∧
    (Helix.findPoint cosAtTwo sinAtTwo { radius := 1, step := 1 } (2 + 2 * PI)).z =
      1.318471337579618 ∧
    (1.318471337579618 : Double) - 0.3184713375796178 = 1.0000000000000002 ∧
    (1.0000000000000002 : Double) ≠ 1 ∧
    (1.318471337579618 : Double).toRat - (0.3184713375796178 : Double).toRat ≠
      (1 : Double).toRat := by
  refine ⟨double_helix_new 1 1 (by decide!) (by decide!), by decide!, by decide!, by decide!,
    by decide!, by decide!, ?_⟩
  have h1 : (0.3184713375796178 : Double) = Double.fin (5737069589007001 * 2 ^ 1020) := by
    decide!
  have h2 : (1.318471337579618 : Double) = Double.fin (5937867024622247 * 2 ^ 1022) := by
    decide!
  rw [h1, h2, toRat_one_two.1]
  simp only [Double.toRat]
  norm_num

/-! ## The sum of the radii in doubles -/

/-- A point within `R * 2 ^ -51` of `(R cos, R sin)` in each coordinate has
squared distance within `R ^ 2 * 2 ^ -48` of `R ^ 2`. -/
theorem circle_point_error (R C S x y : ℝ) (hR : 0 < R) (hCS : C ^ 2 + S ^ 2 = 1)
    (hx : |x - R * C| ≤ R / 2 ^ 51) (hy : |y - R * S| ≤ R / 2 ^ 51) :
    |x ^ 2 + y ^ 2 - R ^ 2| ≤ R ^ 2 / 2 ^ 48 := by
  have hC : |C| ≤ 1 := by
    rw [abs_le]
    constructor <;> nlinarith [sq_nonneg S, sq_nonneg (C - 1), sq_nonneg (C + 1)]
  have hS : |S| ≤ 1 := by
    rw [abs_le]
    constructor <;> nlinarith [sq_nonneg C, sq_nonneg (S - 1), sq_nonneg (S + 1)]
  have e : x ^ 2 + y ^ 2 - R ^ 2 =
      2 * R * (C * (x - R * C)) + (x - R * C) ^ 2 + 2 * R * (S * (y - R * S)) +
        (y - R * S) ^ 2 := by
    have : R ^ 2 = R ^ 2 * (C ^ 2 + S ^ 2) := by rw [hCS, mul_one]
    rw [this]
    ring
  have ha0 := abs_nonneg (x - R * C)
  have hb0 := abs_nonneg (y - R * S)
  have h1 : |C * (x - R * C)| ≤ R / 2 ^ 51 := by
    rw [abs_mul]
    calc |C| * |x - R * C| ≤ 1 * (R / 2 ^ 51) := mul_le_mul hC hx ha0 (by norm_num)
      _ = R / 2 ^ 51 := one_mul _
  have h2 : |S * (y - R * S)| ≤ R / 2 ^ 51 := by
    rw [abs_mul]
    calc |S| * |y - R * S| ≤ 1 * (R / 2 ^ 51) := mul_le_mul hS hy hb0 (by norm_num)
      _ = R / 2 ^ 51 := one_mul _
  have h3 : (x - R * C) ^ 2 ≤ (R / 2 ^ 51) ^ 2 := by
    rw [← sq_abs (x - R * C)]
    exact pow_le_pow_left₀ ha0 hx 2
  have h4 : (y - R * S) ^ 2 ≤ (R / 2 ^ 51) ^ 2 := by
    rw [← sq_abs (y - R * S)]
    exact pow_le_pow_left₀ hb0 hy 2
  have h5 : |2 * R * (C * (x - R * C))| ≤ 2 * R * (R / 2 ^ 51) := by
    rw [abs_mul, abs_of_pos (by linarith : (0 : ℝ) < 2 * R)]
    exact mul_le_mul_of_nonneg_left h1 (by linarith)
  have h6 : |2 * R * (S * (y - R * S))| ≤ 2 * R * (R / 2 ^ 51) := by
    rw [abs_mul, abs_of_pos (by linarith : (0 : ℝ) < 2 * R)]
    exact mul_le_mul_of_nonneg_left h2 (by linarith)
  have h7 : |x ^ 2 + y ^ 2 - R ^ 2| ≤ |2 * R * (C * (x - R * C))| + |(x - R * C) ^ 2| +
      |2 * R * (S * (y - R * S))| + |(y - R * S) ^ 2| := by
    rw [e]
    refine (abs_add _ _).trans ?_
    refine add_le_add_right ((abs_add _ _).trans ?_) _
    exact add_le_add_right (abs_add _ _) _
  rw [abs_of_nonneg (sq_nonneg (x - R * C)), abs_of_nonneg (sq_nonneg (y - R * S))] at h7
  have h8 : 2 * R * (R / 2 ^ 51) + (R / 2 ^ 51) ^ 2 + 2 * R * (R / 2 ^ 51) + (R / 2 ^ 51) ^ 2 ≤
      R ^ 2 / 2 ^ 48 := by
    have e1 : 2 * R * (R / 2 ^ 51) + (R / 2 ^ 51) ^ 2 + 2 * R * (R / 2 ^ 51) +
        (R / 2 ^ 51) ^ 2 = R ^ 2 * (4 / 2 ^ 51 + 2 / 2 ^ 102) := by ring
    have e2 : R ^ 2 / 2 ^ 48 = R ^ 2 * (1 / 2 ^ 48) := by ring
    rw [e1, e2]
    exact mul_le_mul_of_nonneg_left (by norm_num) (sq_nonneg R)
  linarith

theorem sqrt_near (q R ε : ℝ) (hq : 0 ≤ q) (hR : 0 < R) (h : |q - R ^ 2| ≤ R ^ 2 * ε) :
    |Real.sqrt q - R| ≤ R * ε := by
  have hd0 := Real.sqrt_nonneg q
  have hd : Real.sqrt q * Real.sqrt q = q := Real.mul_self_sqrt hq
  have e : q - R ^ 2 = (Real.sqrt q - R) * (Real.sqrt q + R) := by
    have : (Real.sqrt q - R) * (Real.sqrt q + R) = Real.sqrt q * Real.sqrt q - R ^ 2 := by
      ring
    rw [this, hd]
  rw [e, abs_mul, abs_of_pos (by linarith : 0 < Real.sqrt q + R)] at h
  have h1 : |Real.sqrt q - R| * R ≤ |Real.sqrt q - R| * (Real.sqrt q + R) :=
    mul_le_mul_of_nonneg_left (by linarith) (abs_nonneg _)
  have h2 : |Real.sqrt q - R| * R ≤ R * ε * R := by
    have : R ^ 2 * ε = R * ε * R := by ring
    linarith
  exact le_of_mul_le_mul_right h2 hR


/-- Error of the double `r * c` against `R * C`, when `c` is within `2 ^ -52`
of `C` and `|C| ≤ 1`. -/
theorem coordinate_error (r c : Double) (C : ℝ) (hr : r.IsFinite) (hc : c.IsFinite)
    (hlow : (1 : ℚ) / 2 ^ 1000 ≤ r.toRat) (hhigh : r.toRat ≤ 2 ^ 1000) (hC : |C| ≤ 1)
    (hacc : |((c.toRat : ℚ) : ℝ) - C| ≤ 1 / 2 ^ 52) :
    |(((r * c).toRat : ℚ) : ℝ) - ((r.toRat : ℚ) : ℝ) * C| ≤ ((r.toRat : ℚ) : ℝ) / 2 ^ 51 := by
  have hRpos : (0 : ℚ) < r.toRat := lt_of_lt_of_le (by positivity) hlow
  have hcR : |((c.toRat : ℚ) : ℝ)| ≤ 1 + 1 / 2 ^ 52 := by
    have h1 : |((c.toRat : ℚ) : ℝ)| ≤ |((c.toRat : ℚ) : ℝ) - C| + |C| := by
      have := abs_add (((c.toRat : ℚ) : ℝ) - C) C
      rwa [sub_add_cancel] at this
    linarith
  have hcq : |c.toRat| ≤ 2 := by
    have h2 : |((c.toRat : ℚ) : ℝ)| ≤ 2 := by
      have : (1 : ℝ) + 1 / 2 ^ 52 ≤ 2 := by norm_num
      linarith
    have h3 : ((|c.toRat| : ℚ) : ℝ) ≤ ((2 : ℚ) : ℝ) := by
      rw [Rat.cast_abs]
      exact_mod_cast h2
    exact_mod_cast h3
  have hx : |r.toRat * c.toRat| ≤ 2 ^ 1023 := by
    rw [abs_mul, abs_of_pos hRpos]
    calc r.toRat * |c.toRat| ≤ 2 ^ 1000 * 2 := mul_le_mul hhigh hcq (abs_nonneg _) (by positivity)
      _ ≤ 2 ^ 1023 := by norm_num
  obtain ⟨-, herr, -⟩ := double_mul_spec r c hr hc hx
  rw [abs_mul, abs_of_pos hRpos] at herr
  have herrR : |(((r * c).toRat : ℚ) : ℝ) - ((r.toRat : ℚ) : ℝ) * ((c.toRat : ℚ) : ℝ)| ≤
      ((r.toRat : ℚ) : ℝ) * |((c.toRat : ℚ) : ℝ)| / 2 ^ 53 + 1 / 2 ^ 1075 := by
    have := (Rat.cast_le (K := ℝ)).mpr herr
    push_cast at this
    exact this
  have hlowR : (1 : ℝ) / 2 ^ 1000 ≤ ((r.toRat : ℚ) : ℝ) := by
    have := (Rat.cast_le (K := ℝ)).mpr hlow
    push_cast at this
    exact this
  generalize (((r * c).toRat : ℚ) : ℝ) = x at herrR ⊢
  generalize ((r.toRat : ℚ) : ℝ) = R at herrR hlowR ⊢
  generalize ((c.toRat : ℚ) : ℝ) = c' at herrR hcR hacc
  have hR0 : 0 < R := lt_of_lt_of_le (by positivity) hlowR
  have h1 : |x - R * C| ≤ |x - R * c'| + |R * c' - R * C| := abs_sub_le _ _ _
  have h2 : |R * c' - R * C| ≤ R * (1 / 2 ^ 52) := by
    rw [← mul_sub, abs_mul, abs_of_pos hR0]
    exact mul_le_mul_of_nonneg_left hacc hR0.le
  have h3 : R * |c'| / 2 ^ 53 ≤ R * (1 + 1 / 2 ^ 52) / 2 ^ 53 :=
    div_le_div_of_nonneg_right (mul_le_mul_of_nonneg_left hcR hR0.le) (by positivity)
  have h4 : (1 : ℝ) / 2 ^ 1075 ≤ R * (1 / 2 ^ 75) := by
    calc (1 : ℝ) / 2 ^ 1075 = 1 / 2 ^ 1000 * (1 / 2 ^ 75) := by norm_num
      _ ≤ R * (1 / 2 ^ 75) := mul_le_mul_of_nonneg_right hlowR (by positivity)
  have h5 : R * (1 + 1 / 2 ^ 52) / 2 ^ 53 + R * (1 / 2 ^ 75) + R * (1 / 2 ^ 52) ≤
      R / 2 ^ 51 := by
    have e1 : R * (1 + 1 / 2 ^ 52) / 2 ^ 53 + R * (1 / 2 ^ 75) + R * (1 / 2 ^ 52) =
        R * ((1 + 1 / 2 ^ 52) / 2 ^ 53 + 1 / 2 ^ 75 + 1 / 2 ^ 52) := by ring
    have e2 : R / 2 ^ 51 = R * (1 / 2 ^ 51) := by ring
    rw [e1, e2]
    exact mul_le_mul_of_nonneg_left (by norm_num) hR0.le
  linarith


theorem double_circle_new (r : Double) (hr : 0 < r) :
    Circle.new r = .ok { radius := r } := by
  have h1 : ¬ (r ≤ 0) := fun h => double_not_lt_of_le h hr
  simp [Circle.new, Curve.init, h1]

theorem toRat_zero : (0 : Double).toRat = 0 := by
  show (Double.fin 0).toRat = 0
  simp [Double.toRat]

/-- Even and odd terms of the exponential series of `x * I`. -/
theorem exp_series_mul_I (x : ℝ) (N : Nat) :
    (∑ m ∈ Finset.range (2 * N), ((x : ℂ) * Complex.I) ^ m / (m.factorial : ℂ)) =
      ((∑ k ∈ Finset.range N, (-1) ^ k * x ^ (2 * k) / ((2 * k).factorial : ℝ) : ℝ) : ℂ) +
      ((∑ k ∈ Finset.range N, (-1) ^ k * x ^ (2 * k + 1) / ((2 * k + 1).factorial : ℝ) : ℝ) : ℂ) *
        Complex.I := by
  induction N with
  | zero => simp
  | succ N ih =>
    have e : 2 * (N + 1) = 2 * N + 1 + 1 := by ring
    rw [e, Finset.sum_range_succ, Finset.sum_range_succ, ih, Finset.sum_range_succ,
      Finset.sum_range_succ]
    have hI2 : ∀ k : Nat, Complex.I ^ (2 * k) = (-1) ^ k := by
      intro k
      rw [pow_mul, Complex.I_sq]
    have h1 : ((x : ℂ) * Complex.I) ^ (2 * N) = (-1) ^ N * (x : ℂ) ^ (2 * N) := by
      rw [mul_pow, hI2]
      ring
    have h2 : ((x : ℂ) * Complex.I) ^ (2 * N + 1) =
        (-1) ^ N * (x : ℂ) ^ (2 * N + 1) * Complex.I := by
      rw [pow_succ, h1]
      ring
    rw [h1, h2]
    push_cast
    ring

/-- Truncation error of the cosine and sine series after `N` terms. -/
theorem cos_sin_series_bound (x : ℝ) (N : Nat)
    (hx : |x| / ((2 * N : ℕ) + 1 : ℝ) ≤ 1 / 2) :
    |Real.cos x - ∑ k ∈ Finset.range N, (-1) ^ k * x ^ (2 * k) / ((2 * k).factorial : ℝ)| ≤
      |x| ^ (2 * N) / ((2 * N).factorial : ℝ) * 2 ∧
    |Real.sin x -
        ∑ k ∈ Finset.range N, (-1) ^ k * x ^ (2 * k + 1) / ((2 * k + 1).factorial : ℝ)| ≤
      |x| ^ (2 * N) / ((2 * N).factorial : ℝ) * 2 := by
  have habs : Complex.abs ((x : ℂ) * Complex.I) = |x| := by
    rw [map_mul, Complex.abs_I, mul_one, Complex.abs_ofReal]
  have hb := Complex.exp_bound' (x := (x : ℂ) * Complex.I) (n := 2 * N)
    (by rw [habs]; simpa using hx)
  rw [habs, exp_series_mul_I, Complex.exp_mul_I] at hb
  set A : ℝ := ∑ k ∈ Finset.range N, (-1) ^ k * x ^ (2 * k) / ((2 * k).factorial : ℝ)
  set B : ℝ := ∑ k ∈ Finset.range N, (-1) ^ k * x ^ (2 * k + 1) / ((2 * k + 1).factorial : ℝ)
  have hz : Complex.cos (x : ℂ) + Complex.sin (x : ℂ) * Complex.I -
      ((A : ℂ) + (B : ℂ) * Complex.I) =
      ((Real.cos x - A : ℝ) : ℂ) + ((Real.sin x - B : ℝ) : ℂ) * Complex.I := by
    push_cast
    ring
  rw [hz] at hb
  constructor
  · refine le_trans ?_ hb
    have := Complex.abs_re_le_abs (((Real.cos x - A : ℝ) : ℂ) +
      ((Real.sin x - B : ℝ) : ℂ) * Complex.I)
    simpa using this
  · refine le_trans ?_ hb
    have := Complex.abs_im_le_abs (((Real.cos x - A : ℝ) : ℂ) +
      ((Real.sin x - B : ℝ) : ℂ) * Complex.I)
    simpa using this


/-- The cosine and the sine of 2 to within half a unit in the last place of a
double. -/
theorem cos_sin_two_approx :
    |Real.cos 2 - (-7496634952020485 / 2 ^ 54)| ≤ 1 / 2 ^ 55 ∧
    |Real.sin 2 - (4095111552621091 / 2 ^ 52)| ≤ 1 / 2 ^ 54 := by
  have hx : |(2 : ℝ)| / ((2 * 15 : ℕ) + 1 : ℝ) ≤ 1 / 2 := by
    rw [abs_of_pos (by norm_num : (0 : ℝ) < 2)]
    norm_num
  obtain ⟨hc, hs⟩ := cos_sin_series_bound 2 15 hx
  rw [abs_of_pos (by norm_num : (0 : ℝ) < 2)] at hc hs
  simp only [Finset.sum_range_succ, Finset.sum_range_zero, Nat.factorial] at hc hs
  norm_num at hc hs
  rw [abs_le] at hc hs ⊢
  rw [abs_le]
  refine ⟨⟨?_, ?_⟩, ⟨?_, ?_⟩⟩ <;> linarith [hc.1, hc.2, hs.1, hs.2]


/-- The values of `cosAtTwo` and `sinAtTwo` at 2 are the doubles nearest to the
cosine and the sine of 2. -/
theorem library_values_at_two :
    (cosAtTwo 2).IsFinite ∧ (sinAtTwo 2).IsFinite ∧
    |(((cosAtTwo 2).toRat : ℚ) : ℝ) - Real.cos (((2 : Double).toRat : ℚ) : ℝ)| ≤ 1 / 2 ^ 55 ∧
    |(((sinAtTwo 2).toRat : ℚ) : ℝ) - Real.sin (((2 : Double).toRat : ℚ) : ℝ)| ≤ 1 / 2 ^ 54 := by
  have hc : cosAtTwo 2 = Double.fin (-7496634952020485 * 2 ^ 1020) := by decide!
  have hs : sinAtTwo 2 = Double.fin (4095111552621091 * 2 ^ 1022) := by decide!
  have hcq : (cosAtTwo 2).toRat = -7496634952020485 / 2 ^ 54 := by
    rw [hc]
    simp only [Double.toRat]
    norm_num
  have hsq : (sinAtTwo 2).toRat = 4095111552621091 / 2 ^ 52 := by
    rw [hs]
    simp only [Double.toRat]
    norm_num
  refine ⟨by decide!, by decide!, ?_, ?_⟩
  · rw [hcq, toRat_one_two.2, abs_sub_comm]
    push_cast
    exact cos_sin_two_approx.1
  · rw [hsq, toRat_one_two.2, abs_sub_comm]
    push_cast
    exact cos_sin_two_approx.2

/-- The cosine and the sine of 5 to within half a unit in the last place of a
double. -/
theorem cos_sin_five_approx :
    |Real.cos 5 - (5110003651005145 / 2 ^ 54)| ≤ 1 / 2 ^ 55 ∧
    |Real.sin 5 - (-8637222012098867 / 2 ^ 53)| ≤ 1 / 2 ^ 54 := by
  have hx : |(5 : ℝ)| / ((2 * 25 : ℕ) + 1 : ℝ) ≤ 1 / 2 := by
    rw [abs_of_pos (by norm_num : (0 : ℝ) < 5)]
    norm_num
  obtain ⟨hc, hs⟩ := cos_sin_series_bound 5 25 hx
  rw [abs_of_pos (by norm_num : (0 : ℝ) < 5)] at hc hs
  simp only [Finset.sum_range_succ, Finset.sum_range_zero, Nat.factorial] at hc hs
  norm_num at hc hs
  rw [abs_le] at hc hs ⊢
  rw [abs_le]
  refine ⟨⟨?_, ?_⟩, ⟨?_, ?_⟩⟩ <;> linarith [hc.1, hc.2, hs.1, hs.2]

/-- The values of `cosAtFive` and `sinAtFive` at 5 are the doubles nearest to
the cosine and the sine of 5. -/
theorem library_values_at_five :
    |(((cosAtFive 5).toRat : ℚ) : ℝ) - Real.cos (((5 : Double).toRat : ℚ) : ℝ)| ≤ 1 / 2 ^ 55 ∧
    |(((sinAtFive 5).toRat : ℚ) : ℝ) - Real.sin (((5 : Double).toRat : ℚ) : ℝ)| ≤ 1 / 2 ^ 54 := by
  have hc : cosAtFive 5 = Double.fin (5110003651005145 * 2 ^ 1020) := by decide!
  have hs : sinAtFive 5 = Double.fin (-8637222012098867 * 2 ^ 1021) := by decide!
  have hcq : (cosAtFive 5).toRat = 5110003651005145 / 2 ^ 54 := by
    rw [hc]
    simp only [Double.toRat]
    norm_num
  have hsq : (sinAtFive 5).toRat = -8637222012098867 / 2 ^ 53 := by
    rw [hs]
    simp only [Double.toRat]
    norm_num
  refine ⟨?_, ?_⟩
  · rw [hcq, toRat_three_five.2, abs_sub_comm]
    push_cast
    exact cos_sin_five_approx.1
  · rw [hsq, toRat_three_five.2, abs_sub_comm]
    push_cast
    exact cos_sin_five_approx.2

/-- C4 (as amended): for a radius `r` between `2 ^ -1000` and `2 ^ 1000` and a
parameter `t` at which the library functions `cos` and `sin` return finite
doubles within `2 ^ -52` of the cosine and the sine of `t`, the point
`Circle(r).findPoint(t)` has `z = 0` and lies on the circle up to rounding: its
squared distance from the origin is within `r ^ 2 * 2 ^ -48` of `r ^ 2`, and
its distance within `r * 2 ^ -48` of `r`. -/
theorem circle_point_near_circle (cos sin : Double → Double) (r t : Double)
    (hr : 0 < r) (hrfin : r.IsFinite)
    (hlow : (1 : ℚ) / 2 ^ 1000 ≤ r.toRat) (hhigh : r.toRat ≤ 2 ^ 1000)
    (hcfin : (cos t).IsFinite) (hsfin : (sin t).IsFinite)
    (hcos : |(((cos t).toRat : ℚ) : ℝ) - Real.cos ((t.toRat : ℚ) : ℝ)| ≤ 1 / 2 ^ 52)
    (hsin : |(((sin t).toRat : ℚ) : ℝ) - Real.sin ((t.toRat : ℚ) : ℝ)| ≤ 1 / 2 ^ 52) :
    ∃ c, Circle.new r = .ok c ∧
      (c.findPoint cos sin t).z = 0 ∧
      |((((c.findPoint cos sin t).x).toRat : ℚ) : ℝ) ^ 2 +
          ((((c.findPoint cos sin t).y).toRat : ℚ) : ℝ) ^ 2 +
          ((((c.findPoint cos sin t).z).toRat : ℚ) : ℝ) ^ 2 - ((r.toRat : ℚ) : ℝ) ^ 2| ≤
        ((r.toRat : ℚ) : ℝ) ^ 2 / 2 ^ 48 ∧
      |Real.sqrt (((((c.findPoint cos sin t).x).toRat : ℚ) : ℝ) ^ 2 +
          ((((c.findPoint cos sin t).y).toRat : ℚ) : ℝ) ^ 2 +
          ((((c.findPoint cos sin t).z).toRat : ℚ) : ℝ) ^ 2) - ((r.toRat : ℚ) : ℝ)| ≤
        ((r.toRat : ℚ) : ℝ) / 2 ^ 48 := by
  refine ⟨_, double_circle_new r hr, rfl, ?_⟩
  show |(((r * cos t).toRat : ℚ) : ℝ) ^ 2 + (((r * sin t).toRat : ℚ) : ℝ) ^ 2 +
        (((0 : Double).toRat : ℚ) : ℝ) ^ 2 - ((r.toRat : ℚ) : ℝ) ^ 2| ≤
      ((r.toRat : ℚ) : ℝ) ^ 2 / 2 ^ 48 ∧
    |Real.sqrt ((((r * cos t).toRat : ℚ) : ℝ) ^ 2 + (((r * sin t).toRat : ℚ) : ℝ) ^ 2 +
        (((0 : Double).toRat : ℚ) : ℝ) ^ 2) - ((r.toRat : ℚ) : ℝ)| ≤
      ((r.toRat : ℚ) : ℝ) / 2 ^ 48
  have hx := coordinate_error r (cos t) (Real.cos ((t.toRat : ℚ) : ℝ)) hrfin hcfin hlow hhigh
    (Real.abs_cos_le_one _) hcos
  have hy := coordinate_error r (sin t) (Real.sin ((t.toRat : ℚ) : ℝ)) hrfin hsfin hlow hhigh
    (Real.abs_sin_le_one _) hsin
  have hRpos : (0 : ℝ) < ((r.toRat : ℚ) : ℝ) := by
    have : (0 : ℚ) < r.toRat := lt_of_lt_of_le (by positivity) hlow
    exact_mod_cast this
  have hmain := circle_point_error _ _ _ _ _ hRpos (Real.cos_sq_add_sin_sq _) hx hy
  have e0 : (((0 : Double).toRat : ℚ) : ℝ) ^ 2 = 0 := by
    rw [toRat_zero]
    norm_num
  rw [e0, add_zero]
  refine ⟨hmain, ?_⟩
  have hdiv : ((r.toRat : ℚ) : ℝ) ^ 2 / 2 ^ 48 = ((r.toRat : ℚ) : ℝ) ^ 2 * (1 / 2 ^ 48) := by
    ring
  rw [hdiv] at hmain
  have := sqrt_near _ _ _ (add_nonneg (sq_nonneg _) (sq_nonneg _)) hRpos hmain
  rw [mul_one_div] at this
  exact this

/-- C4, witness: `Circle(5)` at `t = 2`, with the values of `cos(2)` and
`sin(2)`. -/
theorem circle_point_near_circle_witness :
    (0 : Double) < 5 ∧ (5 : Double).IsFinite ∧
    (1 : ℚ) / 2 ^ 1000 ≤ (5 : Double).toRat ∧ (5 : Double).toRat ≤ 2 ^ 1000 ∧
    (cosAtTwo 2).IsFinite ∧ (sinAtTwo 2).IsFinite ∧
    |(((cosAtTwo 2).toRat : ℚ) : ℝ) - Real.cos (((2 : Double).toRat : ℚ) : ℝ)| ≤ 1 / 2 ^ 52 ∧
    |(((sinAtTwo 2).toRat : ℚ) : ℝ) - Real.sin (((2 : Double).toRat : ℚ) : ℝ)| ≤ 1 / 2 ^ 52 ∧
    ∃ c, Circle.new (5 : Double) = .ok c ∧
      (c.findPoint cosAtTwo sinAtTwo 2).z = 0 ∧
      |((((c.findPoint cosAtTwo sinAtTwo 2).x).toRat : ℚ) : ℝ) ^ 2 +
          ((((c.findPoint cosAtTwo sinAtTwo 2).y).toRat : ℚ) : ℝ) ^ 2 +
          ((((c.findPoint cosAtTwo sinAtTwo 2).z).toRat : ℚ) : ℝ) ^ 2 -
          (((5 : Double).toRat : ℚ) : ℝ) ^ 2| ≤
        (((5 : Double).toRat : ℚ) : ℝ) ^ 2 / 2 ^ 48 ∧
      |Real.sqrt (((((c.findPoint cosAtTwo sinAtTwo 2).x).toRat : ℚ) : ℝ) ^ 2 +
          ((((c.findPoint cosAtTwo sinAtTwo 2).y).toRat : ℚ) : ℝ) ^ 2 +
          ((((c.findPoint cosAtTwo sinAtTwo 2).z).toRat : ℚ) : ℝ) ^ 2) -
          (((5 : Double).toRat : ℚ) : ℝ)| ≤
        (((5 : Double).toRat : ℚ) : ℝ) / 2 ^ 48 :=
  have hlow : (1 : ℚ) / 2 ^ 1000 ≤ (5 : Double).toRat := by
    rw [toRat_three_five.2]
    norm_num
  have hhigh : (5 : Double).toRat ≤ 2 ^ 1000 := by
    rw [toRat_three_five.2]
    norm_num
  have hcos : |(((cosAtTwo 2).toRat : ℚ) : ℝ) - Real.cos (((2 : Double).toRat : ℚ) : ℝ)| ≤
      1 / 2 ^ 52 :=
    le_trans library_values_at_two.2.2.1 (by norm_num)
  have hsin : |(((sinAtTwo 2).toRat : ℚ) : ℝ) - Real.sin (((2 : Double).toRat : ℚ) : ℝ)| ≤
      1 / 2 ^ 52 :=
    le_trans library_values_at_two.2.2.2 (by norm_num)
  ⟨by decide!, by decide!, hlow, hhigh, by decide!, by decide!, hcos, hsin,
    circle_point_near_circle cosAtTwo sinAtTwo 5 2 (by decide!) (by decide!) hlow hhigh
      (by decide!) (by decide!) hcos hsin⟩

/-- C4, counterexample: `Circle(5)` is constructed; at `t = 2`, where `cos`
and `sin` return -0.4161468365471424 and 0.9092974268256817 (the doubles
nearest to the cosine and the sine of 2), `findPoint` returns the point
(-2.080734182735712, 4.546487134128409, 0), for which `x * x + y * y + z * z`
is 25.000000000000004 in doubles, not `5 * 5 = 25`; as real numbers too the
squared distance of the point is not 25. -/
theorem circle_point_off_circle :
    Circle.new (5 : Double) = .ok { radius := 5 } ∧
    cosAtTwo 2 = -0.4161468365471424 ∧ sinAtTwo 2 = 0.9092974268256817 ∧
    |(((cosAtTwo 2).toRat : ℚ) : ℝ) - Real.cos (((2 : Double).toRat : ℚ) : ℝ)| ≤ 1 / 2 ^ 55 ∧
    |(((sinAtTwo 2).toRat : ℚ) : ℝ) - Real.sin (((2 : Double).toRat : ℚ) : ℝ)| ≤ 1 / 2 ^ 54 ∧
    Circle.findPoint cosAtTwo sinAtTwo { radius := 5 } 2 =
      { x := -2.080734182735712, y := 4.546487134128409, z := 0 } ∧
    (-2.080734182735712 : Double) * -2.080734182735712 +
      4.546487134128409 * 4.546487134128409 + 0 * 0 = 25.000000000000004 ∧
    (5 : Double) * 5 = 25 ∧
    (25.000000000000004 : Double) ≠ 25 ∧
    (-2.080734182735712 : Double).toRat ^ 2 + (4.546487134128409 : Double).toRat ^ 2 +
      (0 : Double).toRat ^ 2 ≠ (5 : Double).toRat ^ 2 := by
  refine ⟨double_circle_new 5 (by decide!), rfl, rfl, library_values_at_two.2.2.1,
    library_values_at_two.2.2.2, by decide!, by decide!, by decide!, by decide!, ?_⟩
  have hx : (-2.080734182735712 : Double) = Double.fin (-4685396845012803 * 2 ^ 1023) := by
    decide!
  have hy : (4.546487134128409 : Double) = Double.fin (1279722360194091 * 2 ^ 1026) := by
    decide!
  rw [hx, hy, toRat_zero, toRat_three_five.2]
  simp only [Double.toRat]
  norm_num

end crv
